import Mathlib

/-
Verification of the arnis map-to-voxel converter against its specification.

The Lean definitions below are a shallow embedding of the Rust sources:
  * src/biome_definitions.rs, src/biome_registry.rs, src/biomes.rs
  * src/elevation_data.rs, src/ground.rs
  * src/element_processing/water_areas.rs
Rust i32/u16/i16 values are modelled as Int/Nat (overflow is commented where
it could matter), f64/f32 arithmetic is modelled exactly over the rationals,
HashMap tag dictionaries are modelled as association lists (first match wins;
OSM tag maps have distinct keys), and fallible or panicking code returns
Option/Except values.  Code that performs I/O (the elevation tile fetch) is
modelled as a pure function of an environment record holding the outcome of
each external call.
-/

namespace Arnis

/-! ## Tag dictionaries (HashMap<String, String>) -/

/-- OSM tag dictionary, modelled as an association list with distinct keys. -/
abbrev Tags := List (String × String)

/-- `HashMap::get`: first binding of the key, if any. -/
def tagGet (tags : Tags) (key : String) : Option String :=
  (List.find? (fun p => p.1 == key) tags).map (fun p => p.2)

/-- `HashMap::contains_key`. -/
def tagHas (tags : Tags) (key : String) : Bool :=
  (tagGet tags key).isSome

/-! ## Biome handles (src/biome_definitions.rs)

`Biome` is an opaque wrapper around a namespaced name.  The constants below
mirror the `pub const` biome list.  `SNOWY_TUNDRA`, `SNOWY_TAIGA` and
`MUSHROOM_FIELDS` are referenced from src/biomes.rs (its `KNOWN_BIOMES`
table fixes their namespaced names) although their `const` definitions are
not among the provided sources; they are reconstructed from that table. -/

structure Biome where
  name : String
deriving DecidableEq, Repr

def PLAINS : Biome := ⟨"minecraft:plains"⟩
def FOREST : Biome := ⟨"minecraft:forest"⟩
def RIVER : Biome := ⟨"minecraft:river"⟩
def BEACH : Biome := ⟨"minecraft:beach"⟩
def DESERT : Biome := ⟨"minecraft:desert"⟩
def OCEAN : Biome := ⟨"minecraft:ocean"⟩
def JUNGLE : Biome := ⟨"minecraft:jungle"⟩
def SWAMP : Biome := ⟨"minecraft:swamp"⟩
def TAIGA : Biome := ⟨"minecraft:taiga"⟩
def SAVANNA : Biome := ⟨"minecraft:savanna"⟩
def MOUNTAINS : Biome := ⟨"minecraft:mountains"⟩
def SNOWY_TUNDRA : Biome := ⟨"minecraft:snowy_tundra"⟩
def SNOWY_TAIGA : Biome := ⟨"minecraft:snowy_taiga"⟩
def MUSHROOM_FIELDS : Biome := ⟨"minecraft:mushroom_fields"⟩

/-! ## Tag-to-biome mapping (src/biomes.rs) -/

/-- `LANDUSE_MAPPINGS` (value, biome) pairs, in source order. -/
def LANDUSE_MAPPINGS : List (String × Biome) :=
  [("forest", FOREST), ("grass", PLAINS), ("meadow", PLAINS),
   ("greenfield", PLAINS), ("orchard", FOREST), ("farmland", PLAINS),
   ("military", PLAINS), ("industrial", PLAINS), ("railway", PLAINS),
   ("commercial", PLAINS), ("residential", PLAINS), ("cemetery", PLAINS),
   ("traffic_island", PLAINS), ("construction", PLAINS),
   ("village_green", PLAINS)]

/-- `NATURAL_MAPPINGS` (value, biome) pairs, in source order. -/
def NATURAL_MAPPINGS : List (String × Biome) :=
  [("beach", BEACH), ("coastline", BEACH), ("wetland", SWAMP),
   ("swamp", SWAMP), ("marsh", SWAMP), ("wood", FOREST),
   ("scrub", SAVANNA), ("grassland", SAVANNA), ("heath", SAVANNA),
   ("taiga", TAIGA), ("fell", MOUNTAINS), ("bare_rock", MOUNTAINS),
   ("scree", MOUNTAINS), ("rock", MOUNTAINS), ("sand", DESERT),
   ("glacier", SNOWY_TUNDRA), ("ice", SNOWY_TUNDRA), ("tree", FOREST),
   ("woodland", FOREST)]

/-- `LEISURE_MAPPINGS` (value, biome) pairs, in source order. -/
def LEISURE_MAPPINGS : List (String × Biome) :=
  [("park", PLAINS), ("nature_reserve", FOREST), ("pitch", PLAINS),
   ("golf_course", PLAINS), ("garden", PLAINS)]

/-- `KNOWN_BIOMES` (name, biome) pairs, in source order. -/
def KNOWN_BIOMES : List (String × Biome) :=
  [("minecraft:plains", PLAINS), ("minecraft:forest", FOREST),
   ("minecraft:river", RIVER), ("minecraft:beach", BEACH),
   ("minecraft:desert", DESERT), ("minecraft:ocean", OCEAN),
   ("minecraft:jungle", JUNGLE), ("minecraft:swamp", SWAMP),
   ("minecraft:taiga", TAIGA), ("minecraft:savanna", SAVANNA),
   ("minecraft:mountains", MOUNTAINS),
   ("minecraft:snowy_tundra", SNOWY_TUNDRA),
   ("minecraft:snowy_taiga", SNOWY_TAIGA),
   ("minecraft:mushroom_fields", MUSHROOM_FIELDS)]

/-- `parse_known_biome`. -/
def parse_known_biome (name : String) : Option Biome :=
  (List.find? (fun p => p.1 == name) KNOWN_BIOMES).map (fun p => p.2)

/-- `lookup` over a mapping table. -/
def lookupMapping (table : List (String × Biome)) (value : String) :
    Option Biome :=
  (List.find? (fun p => p.1 == value) table).map (fun p => p.2)

/-- The Rust `match` over the `water` tag value in
`biome_from_water_related`, arm by arm (a Rust or-pattern match over string
literals is a first-match equality chain). -/
def waterValueBiome (v : String) : Biome :=
  if v = ("river") ∨ v = ("canal") ∨ v = ("stream") then RIVER
  else if v = ("lake") ∨ v = ("reservoir") ∨ v = ("lagoon") ∨ v = ("pond")
    then OCEAN
  else if v = ("sea") ∨ v = ("ocean") then OCEAN
  else if v = ("wetland") ∨ v = ("swamp") then SWAMP
  else RIVER

/-- The Rust `match` over the `waterway` tag value in
`biome_from_water_related`, arm by arm. -/
def waterwayValueBiome (v : String) : Biome :=
  if v = ("river") ∨ v = ("canal") ∨ v = ("stream") then RIVER
  else if v = ("drain") then SWAMP
  else RIVER

/-- `biome_from_water_related`. -/
def biome_from_water_related (tags : Tags) : Option Biome :=
  match tagGet tags ("water") with
  | some waterValue => some (waterValueBiome waterValue)
  | none =>
    match tagGet tags ("waterway") with
    | some waterway => some (waterwayValueBiome waterway)
    | none => none

/-- `biome_from_tags`: priority order is explicit biome tag, natural=water
water hints, the natural table, the water hints again, landuse, leisure,
then plains. -/
def biome_from_tags (tags : Tags) : Option Biome :=
  match (tagGet tags ("biome")).bind parse_known_biome with
  | some biome => some biome
  | none =>
    let naturalStep : Option Biome :=
      match tagGet tags ("natural") with
      | some naturalValue =>
        match (if naturalValue = ("water") then biome_from_water_related tags
               else none) with
        | some waterBiome => some waterBiome
        | none => lookupMapping NATURAL_MAPPINGS naturalValue
      | none => none
    match naturalStep with
    | some biome => some biome
    | none =>
      match biome_from_water_related tags with
      | some waterBiome => some waterBiome
      | none =>
        match (tagGet tags ("landuse")).bind
            (lookupMapping LANDUSE_MAPPINGS) with
        | some biome => some biome
        | none =>
          match (tagGet tags ("leisure")).bind
              (lookupMapping LEISURE_MAPPINGS) with
          | some biome => some biome
          | none => some PLAINS

/-! ## Biome registry (src/biome_registry.rs)

The registry is a `Vec<Biome>` with an inverse hash map; because the vector
never holds duplicates, the inverse map is exactly the first-index lookup,
so the state is modelled by the vector alone. -/

/-- First index of an element in a list (the inverse id map of the
registry). -/
def listIndexOf {α : Type} [DecidableEq α] : List α → α → Option Nat
  | [], _ => none
  | x :: xs, b => if x = b then some 0 else (listIndexOf xs b).map (· + 1)

/-- The `REGISTRY` construction-time biome vector (the `Lazy` initializer). -/
def initialRegistry : List Biome :=
  [PLAINS, FOREST, RIVER, BEACH, DESERT, OCEAN, JUNGLE, SWAMP, TAIGA,
   SAVANNA, MOUNTAINS]

/-- `biome_registry::id`: existing index, or append and return the new index.
Returns the id together with the updated registry state. -/
def registryId (registry : List Biome) (b : Biome) : Nat × List Biome :=
  match listIndexOf registry b with
  | some i => (i, registry)
  | none => (registry.length, registry ++ [b])

/-- Failure kinds reported by registry lookups. -/
inductive RegistryError where
  | outOfRange
deriving DecidableEq, Repr

/-- `biome_registry::biome`: handle for an id.  The Rust code fails via
`expect ("biome id out of range")` when the id is beyond the vector; the
failure is modelled as an `OutOfRange` error value. -/
def registryBiome (registry : List Biome) (id : Nat) :
    Except RegistryError Biome :=
  match registry.get? id with
  | some b => Except.ok b
  | none => Except.error RegistryError.outOfRange

/-! ## Block registry (for claim C3)

src/block_registry.rs and src/block_definitions.rs are not among the
provided sources; only tests/block_registry.rs exercises them. -/

structure Block where
  name : String
deriving DecidableEq, Repr

def AIR : Block := ⟨"minecraft:air"⟩
def WATER : Block := ⟨"minecraft:water"⟩

/-- Modelled from the spec: `AIR_ID`, "the reserved air ID, 0 in the block
registry" (src/block_definitions.rs is not among the provided sources). -/
def AIR_ID : Nat := 0

/-- Modelled from the spec: the block registry interning operation.  The
spec gives the same interning contract as the biome registry (id returns
the existing index or appends), with well-known blocks pre-registered at
construction in enumeration order and air first at the reserved `AIR_ID`;
src/block_registry.rs is not among the provided sources.  The
construction-time vector is `AIR :: rest` for the (unprovided) enumeration
`rest` of the remaining well-known blocks. -/
def blockRegistryId (registry : List Block) (b : Block) : Nat × List Block :=
  match listIndexOf registry b with
  | some i => (i, registry)
  | none => (registry.length, registry ++ [b])

/-! ## Claim C3 -/

/-- C3, counterexample: the claim says every well-known name, including
`snowy_tundra`, receives a stable ID at registry construction; but the
biome registry construction vector holds only the eleven biomes
`PLAINS .. MOUNTAINS`, so `SNOWY_TUNDRA` is not assigned any ID at
construction (it is only interned on first use, at a call-order dependent
position). -/
theorem snowy_tundra_not_preregistered :
    listIndexOf initialRegistry SNOWY_TUNDRA = none ∧
    SNOWY_TUNDRA ∉ initialRegistry ∧
    initialRegistry.length = 11 := by
  exact ⟨by decide, by decide, by decide⟩

/-- C3, amended: the biomes `plains, forest, river, beach, desert, ocean,
jungle, swamp, taiga, savanna, mountains` receive the stable IDs `0..10`
at biome-registry construction, in that enumeration order (so
`id PLAINS = 0`, `id FOREST = 1`, `id RIVER = 2`), each lookup leaving the
registry unchanged; in the spec-modelled block registry, whose construction
vector starts with `AIR`, `id AIR = AIR_ID = 0`.  `snowy_tundra`,
`snowy_taiga` and `mushroom_fields` are not pre-registered. -/
theorem known_biomes_have_stable_ids :
    registryId initialRegistry PLAINS = (0, initialRegistry) ∧
    registryId initialRegistry FOREST = (1, initialRegistry) ∧
    registryId initialRegistry RIVER = (2, initialRegistry) ∧
    registryId initialRegistry BEACH = (3, initialRegistry) ∧
    registryId initialRegistry DESERT = (4, initialRegistry) ∧
    registryId initialRegistry OCEAN = (5, initialRegistry) ∧
    registryId initialRegistry JUNGLE = (6, initialRegistry) ∧
    registryId initialRegistry SWAMP = (7, initialRegistry) ∧
    registryId initialRegistry TAIGA = (8, initialRegistry) ∧
    registryId initialRegistry SAVANNA = (9, initialRegistry) ∧
    registryId initialRegistry MOUNTAINS = (10, initialRegistry) ∧
    (∀ rest : List Block,
      (blockRegistryId (AIR :: rest) AIR).1 = AIR_ID) := by
  refine ⟨by decide, by decide, by decide, by decide, by decide, by decide,
    by decide, by decide, by decide, by decide, by decide, ?_⟩
  intro rest
  simp [blockRegistryId, listIndexOf, AIR_ID]

/-! ## Claim C4 -/

/-- C4: asking the biome registry for the handle of an ID at or beyond the
current registry size yields the `OutOfRange` failure, never a handle. -/
theorem registry_biome_out_of_range (registry : List Biome) (id : Nat)
    (h : registry.length ≤ id) :
    registryBiome registry id = Except.error RegistryError.outOfRange := by
  unfold registryBiome
  rw [List.get?_eq_none.mpr h]

/-- C4 witness: the construction-time registry has 11 entries, so ID 11 is
rejected with `OutOfRange`. -/
theorem registry_biome_out_of_range_witness :
    initialRegistry.length ≤ 11 ∧
    registryBiome initialRegistry 11 =
      Except.error RegistryError.outOfRange :=
  ⟨by decide, registry_biome_out_of_range initialRegistry 11 (by decide)⟩

/-! ## Claim C5 -/

/-- C5, counterexample: for the tag map with just `natural=water` (no
`biome`, `water` or `waterway` tag) the claim requires `river`, but
`biome_from_tags` falls through the natural/landuse/leisure tables to the
`plains` fallback. -/
theorem natural_water_alone_is_plains :
    biome_from_tags [("natural", "water")] = some PLAINS ∧ PLAINS ≠ RIVER := by
  exact ⟨by decide, by decide⟩

/-- C5, amended: for a tag map containing `natural=water` whose `biome` tag
(if any) names no known biome: a `water` value of river/canal/stream gives
river, lake/reservoir/lagoon/pond/sea/ocean gives ocean, wetland/swamp gives
swamp, and any other `water` value gives river; with no `water` tag, a
`waterway` value of drain gives swamp and any other `waterway` value gives
river; with neither a `water` nor a `waterway` tag the lookup falls through
the mapping tables, and (in the absence of `landuse` and `leisure` tags)
returns plains, not river. -/
theorem biome_from_tags_natural_water_cases (tags : Tags)
    (hnat : tagGet tags ("natural") = some ("water"))
    (hbiome : (tagGet tags ("biome")).bind parse_known_biome = none) :
    (∀ v, tagGet tags ("water") = some v →
      biome_from_tags tags = some
        (if v = ("river") ∨ v = ("canal") ∨ v = ("stream") then RIVER
         else if v = ("lake") ∨ v = ("reservoir") ∨ v = ("lagoon") ∨
             v = ("pond") then OCEAN
         else if v = ("sea") ∨ v = ("ocean") then OCEAN
         else if v = ("wetland") ∨ v = ("swamp") then SWAMP
         else RIVER)) ∧
    (tagGet tags ("water") = none →
      ∀ w, tagGet tags ("waterway") = some w →
        biome_from_tags tags = some
          (if w = ("river") ∨ w = ("canal") ∨ w = ("stream") then RIVER
           else if w = ("drain") then SWAMP
           else RIVER)) ∧
    (tagGet tags ("water") = none → tagGet tags ("waterway") = none →
      tagGet tags ("landuse") = none → tagGet tags ("leisure") = none →
      biome_from_tags tags = some PLAINS) := by
  refine ⟨?_, ?_, ?_⟩
  · intro v hv
    simp only [biome_from_tags, hbiome, hnat, biome_from_water_related, hv,
      if_pos rfl, waterValueBiome, if_true]
  · intro hw w hww
    simp only [biome_from_tags, hbiome, hnat, biome_from_water_related, hw,
      hww, if_pos rfl, waterwayValueBiome, if_true]
  · intro hw hww hl hle
    simp only [biome_from_tags, hbiome, hnat, biome_from_water_related, hw,
      hww, hl, hle, if_true]
    decide

/-- C5 witness for the amended theorem: with tags `natural=water` alone all
hypotheses hold and the fall-through case yields plains. -/
theorem biome_from_tags_natural_water_cases_witness :
    biome_from_tags [("natural", "water")] = some PLAINS :=
  (biome_from_tags_natural_water_cases [("natural", "water")]
    (by decide) (by decide)).2.2 (by decide) (by decide) (by decide)
    (by decide)

/-! ## List fold helpers (for the min/max scans in the sources) -/

theorem foldl_min_le_self (l : List ℤ) (a : ℤ) : l.foldl min a ≤ a := by
  induction l generalizing a with
  | nil => exact le_refl a
  | cons x xs ih => exact le_trans (ih (min a x)) (min_le_left a x)

theorem foldl_min_le_mem (l : List ℤ) (a x : ℤ) (hx : x ∈ l) :
    l.foldl min a ≤ x := by
  induction l generalizing a with
  | nil => cases hx
  | cons y xs ih =>
    rcases List.mem_cons.mp hx with h | h
    · subst h
      exact le_trans (foldl_min_le_self xs (min a x)) (min_le_right a x)
    · exact ih (min a y) h

theorem foldl_min_mem (l : List ℤ) (a : ℤ) :
    l.foldl min a = a ∨ l.foldl min a ∈ l := by
  induction l generalizing a with
  | nil => exact Or.inl rfl
  | cons y xs ih =>
    rcases ih (min a y) with h | h
    · rcases min_choice a y with hc | hc
      · exact Or.inl (by rw [List.foldl_cons, h, hc])
      · exact Or.inr (by rw [List.foldl_cons, h, hc]; exact List.mem_cons_self y xs)
    · exact Or.inr (List.mem_cons_of_mem y h)

theorem le_foldl_max_self (l : List ℤ) (a : ℤ) : a ≤ l.foldl max a := by
  induction l generalizing a with
  | nil => exact le_refl a
  | cons x xs ih => exact le_trans (le_max_left a x) (ih (max a x))

theorem le_foldl_max_mem (l : List ℤ) (a x : ℤ) (hx : x ∈ l) :
    x ≤ l.foldl max a := by
  induction l generalizing a with
  | nil => cases hx
  | cons y xs ih =>
    rcases List.mem_cons.mp hx with h | h
    · subst h
      exact le_trans (le_max_right a x) (le_foldl_max_self xs (max a x))
    · exact ih (max a y) h

theorem int_min?_spec {l : List ℤ} {m : ℤ} (h : l.min? = some m) :
    m ∈ l ∧ ∀ x ∈ l, m ≤ x := by
  cases l with
  | nil => simp [List.min?] at h
  | cons a xs =>
    simp only [List.min?, Option.some.injEq] at h
    subst h
    constructor
    · rcases foldl_min_mem xs a with h | h
      · rw [h]; exact List.mem_cons_self a xs
      · exact List.mem_cons_of_mem a h
    · intro x hx
      rcases List.mem_cons.mp hx with h | h
      · rw [h]; exact foldl_min_le_self xs a
      · exact foldl_min_le_mem xs a x h

theorem int_min?_isSome {l : List ℤ} (h : l ≠ []) : ∃ m, l.min? = some m := by
  cases l with
  | nil => exact absurd rfl h
  | cons a xs => exact ⟨xs.foldl min a, rfl⟩

/-! ## Rational models of the Rust float operations -/

/-- Rust `f64::round` / `f32::round`: round half away from zero. -/
def roundRust (q : ℚ) : ℤ :=
  if q < 0 then -(Int.floor (-q + 1/2)) else Int.floor (q + 1/2)

theorem roundRust_mono {a b : ℚ} (h : a ≤ b) : roundRust a ≤ roundRust b := by
  unfold roundRust
  split_ifs with ha hb hb
  · have hfl : Int.floor (-b + 1/2) ≤ Int.floor (-a + 1/2) :=
      Int.floor_mono (by linarith)
    omega
  · have h1 : (0 : ℤ) ≤ Int.floor (-a + 1/2) :=
      Int.floor_nonneg.mpr (by linarith)
    have h2 : (0 : ℤ) ≤ Int.floor (b + 1/2) :=
      Int.floor_nonneg.mpr (by linarith)
    omega
  · exact absurd (lt_of_le_of_lt h hb) ha
  · exact Int.floor_mono (by linarith)

/-- Rust `i32::clamp` (callers must have `lo ≤ hi`; Rust panics otherwise). -/
def clampI (v lo hi : ℤ) : ℤ := if v < lo then lo else if hi < v then hi else v

theorem clampI_mono (lo hi : ℤ) (hlh : lo ≤ hi) {a b : ℤ} (h : a ≤ b) :
    clampI a lo hi ≤ clampI b lo hi := by
  unfold clampI; split_ifs <;> omega

theorem clampI_bounds {lo hi : ℤ} (h : lo ≤ hi) (v : ℤ) :
    lo ≤ clampI v lo hi ∧ clampI v lo hi ≤ hi := by
  unfold clampI; split_ifs <;> omega

/-- Rust `f64::clamp`. -/
def clampQ (v lo hi : ℚ) : ℚ := if v < lo then lo else if hi < v then hi else v

/-! ## Elevation data (src/elevation_data.rs)

`heights` is the `Vec<i16>` raster (i16 values as `Int`).  `height_at` is
the f64 computation carried out exactly over `ℚ`. -/

/-- `MAX_Y`, the build height limit. -/
def MAX_Y : ℤ := 319

structure ElevationData where
  heights : List ℤ
  width : Nat
  height : Nat
  min_height : ℤ
  height_range : ℤ
  ground_level : ℤ
  scaled_range : ℚ

/-- `ElevationData::height_at`.  Out-of-range indexing panics in Rust; the
theorems below always carry an in-range hypothesis, under which the `getD`
default is never taken. -/
def ElevationData.height_at (d : ElevationData) (x z : Nat) : ℤ :=
  let idx := z * d.width + x
  let raw : ℤ := d.heights.getD idx 0
  let relative : ℚ := ((raw - d.min_height : ℤ) : ℚ) / ((d.height_range : ℤ) : ℚ)
  let scaled : ℚ := relative * d.scaled_range
  clampI (roundRust ((d.ground_level : ℚ) + scaled)) d.ground_level MAX_Y

/-- Two's-complement wrap of an integer into the i16 range, as performed by
the release-build Rust subtraction `max_height - min_height` on `i16`
values (a debug build panics on overflow instead, returning nothing). -/
def wrap16 (v : ℤ) : ℤ := (v + 32768) % 65536 - 32768

theorem wrap16_of_small {v : ℤ} (h1 : -32768 ≤ v) (h2 : v ≤ 32767) :
    wrap16 v = v := by
  unfold wrap16
  have h3 : (v + 32768) % 65536 = v + 32768 :=
    Int.emod_eq_of_lt (by omega) (by omega)
  rw [h3]
  omega

theorem wrap16_of_big {v : ℤ} (h1 : 32768 ≤ v) (h2 : v ≤ 65535) :
    wrap16 v = v - 65536 := by
  unfold wrap16
  have hsplit : v + 32768 = (v - 32768) + 65536 * 1 := by omega
  have h3 : (v - 32768) % 65536 = v - 32768 :=
    Int.emod_eq_of_lt (by omega) (by omega)
  rw [hsplit, Int.add_mul_emod_self_left, h3]
  omega

/-- Upper bound for a `foldl max` scan. -/
theorem foldl_max_le (l : List ℤ) (a B : ℤ) (ha : a ≤ B)
    (hl : ∀ x ∈ l, x ≤ B) : l.foldl max a ≤ B := by
  induction l generalizing a with
  | nil => exact ha
  | cons y t ih =>
    exact ih (max a y) (max_le ha (hl y (List.mem_cons_self y t)))
      (fun x hx => hl x (List.mem_cons_of_mem y hx))

/-- Lower bound for a `foldl min` scan. -/
theorem le_foldl_min (l : List ℤ) (a A : ℤ) (ha : A ≤ a)
    (hl : ∀ x ∈ l, A ≤ x) : A ≤ l.foldl min a := by
  induction l generalizing a with
  | nil => exact ha
  | cons y t ih =>
    exact ih (min a y) (le_min ha (hl y (List.mem_cons_self y t)))
      (fun x hx => hl x (List.mem_cons_of_mem y hx))

/-- The post-processing tail of `fetch_elevation_data` (everything after the
tile pixels have been deposited into the raw meter grid): replace unwritten
cells (`i16::MIN`) by 0, compute min/max/range, and derive `scaled_range`
with the 0.9 safety cap.  `hscale0` stands for the initial
`BASE_HEIGHT_SCALE * scale.sqrt()` (nonnegative; square roots are not
rational, so the caller passes the value).  The i16 subtraction
`max_height - min_height` wraps into the i16 range (`wrap16`, release
semantics; a debug build panics when the post-replacement raster span
exceeds 32767). -/
def mkElevationData (raw : List ℤ) (w h : Nat) (ground : ℤ) (hscale0 : ℚ) :
    ElevationData :=
  let heights := raw.map (fun v => if v = -32768 then 0 else v)
  let minH := heights.foldl min 32767
  let maxH := heights.foldl max (-32768)
  let range := wrap16 (maxH - minH)
  let scaled0 : ℚ := (range : ℚ) * hscale0
  let maxAllowed : ℚ := ((MAX_Y - ground : ℤ) : ℚ) * (9/10)
  let scaledRange : ℚ :=
    if maxAllowed < scaled0 then (range : ℚ) * (hscale0 * (maxAllowed / scaled0))
    else scaled0
  ⟨heights, w, h, minH, range, ground, scaledRange⟩

theorem mkElevationData_heights (raw : List ℤ) (w h : Nat) (ground : ℤ)
    (s : ℚ) :
    (mkElevationData raw w h ground s).heights =
      raw.map (fun v => if v = -32768 then 0 else v) := rfl

theorem mkElevationData_scaled_range_def (raw : List ℤ) (w h : Nat)
    (ground : ℤ) (s : ℚ) :
    (mkElevationData raw w h ground s).scaled_range =
      (if ((MAX_Y - ground : ℤ) : ℚ) * (9/10) <
          (((mkElevationData raw w h ground s).height_range : ℤ) : ℚ) * s
       then (((mkElevationData raw w h ground s).height_range : ℤ) : ℚ) *
         (s * (((MAX_Y - ground : ℤ) : ℚ) * (9/10) /
           ((((mkElevationData raw w h ground s).height_range : ℤ) : ℚ) * s)))
       else (((mkElevationData raw w h ground s).height_range : ℤ) : ℚ) * s) :=
  rfl

/-- Sign dichotomy of the stored (i16-wrapped) height range: for i16 input
rasters either the range is the true nonnegative span, or the span
overflowed i16 and the wrapped range is negative — in which case the 0.9
safety cap is not applied (a negative scaled range never exceeds the
nonnegative cap), so `scaled_range = height_range * s` is nonpositive. -/
theorem mkElevationData_range_cases (raw : List ℤ) (w h : Nat) (ground : ℤ)
    (s : ℚ) (hs : 0 ≤ s) (hg : ground ≤ MAX_Y)
    (hi16 : ∀ v ∈ raw, -32768 ≤ v ∧ v ≤ 32767) (hne : raw ≠ []) :
    0 ≤ (mkElevationData raw w h ground s).height_range ∨
      ((mkElevationData raw w h ground s).height_range < 0 ∧
        (mkElevationData raw w h ground s).scaled_range =
          (((mkElevationData raw w h ground s).height_range : ℤ) : ℚ) * s) := by
  set heights := raw.map (fun v => if v = -32768 then 0 else v) with hh
  have hvals : ∀ x ∈ heights, -32767 ≤ x ∧ x ≤ 32767 := by
    intro x hx
    obtain ⟨v, hv, hvx⟩ := List.mem_map.mp hx
    obtain ⟨h1, h2⟩ := hi16 v hv
    by_cases hv8 : v = -32768
    · rw [if_pos hv8] at hvx
      omega
    · rw [if_neg hv8] at hvx
      omega
  obtain ⟨v, hv⟩ := List.exists_mem_of_ne_nil raw hne
  have hv2 : (if v = -32768 then 0 else v) ∈ heights := List.mem_map_of_mem _ hv
  have hminle := foldl_min_le_mem heights 32767 _ hv2
  have hmaxge := le_foldl_max_mem heights (-32768) _ hv2
  have hminlb : -32767 ≤ heights.foldl min 32767 :=
    le_foldl_min heights 32767 (-32767) (by omega)
      (fun x hx => (hvals x hx).1)
  have hmaxub : heights.foldl max (-32768) ≤ 32767 :=
    foldl_max_le heights (-32768) 32767 (by omega)
      (fun x hx => (hvals x hx).2)
  set span := heights.foldl max (-32768) - heights.foldl min 32767 with hspandef
  have hsp0 : 0 ≤ span := by omega
  have hsp1 : span ≤ 65534 := by omega
  have hrange : (mkElevationData raw w h ground s).height_range =
      wrap16 span := rfl
  by_cases hsmall : span ≤ 32767
  · left
    rw [hrange, wrap16_of_small (by omega) hsmall]
    exact hsp0
  · right
    have hrw : (mkElevationData raw w h ground s).height_range =
        span - 65536 := by
      rw [hrange, wrap16_of_big (by omega) (by omega)]
    have hlt0 : (mkElevationData raw w h ground s).height_range < 0 := by
      rw [hrw]
      omega
    refine ⟨hlt0, ?_⟩
    rw [mkElevationData_scaled_range_def raw w h ground s]
    have hqneg : (((mkElevationData raw w h ground s).height_range : ℤ) : ℚ) < 0 := by
      exact_mod_cast hlt0
    have hs0 : (((mkElevationData raw w h ground s).height_range : ℤ) : ℚ) * s ≤ 0 :=
      mul_nonpos_iff.mpr (Or.inr ⟨le_of_lt hqneg, hs⟩)
    have hma : (0 : ℚ) ≤ ((MAX_Y - ground : ℤ) : ℚ) * (9/10) := by
      have h0 : (0 : ℚ) ≤ ((MAX_Y - ground : ℤ) : ℚ) := by
        exact_mod_cast sub_nonneg.mpr hg
      positivity
    rw [if_neg (not_lt.mpr (le_trans hs0 hma))]

theorem mkElevationData_scaled_range_nonneg (raw : List ℤ) (w h : Nat)
    (ground : ℤ) (s : ℚ) (hs : 0 ≤ s) (hg : ground ≤ MAX_Y)
    (hr : 0 ≤ (mkElevationData raw w h ground s).height_range) :
    0 ≤ (mkElevationData raw w h ground s).scaled_range := by
  have hrq : (0 : ℚ) ≤ ((mkElevationData raw w h ground s).height_range : ℚ) := by
    exact_mod_cast hr
  show (0 : ℚ) ≤ (if _ then _ else _)
  split_ifs with hcap
  · -- capped branch: the new scaled range equals the (nonnegative) cap
    have hma : (0 : ℚ) ≤ ((MAX_Y - ground : ℤ) : ℚ) * (9/10) := by
      have : (0 : ℚ) ≤ ((MAX_Y - ground : ℤ) : ℚ) := by
        exact_mod_cast sub_nonneg.mpr hg
      positivity
    have hpos : (0 : ℚ) < _ := lt_of_le_of_lt hma hcap
    have hdiv : (0 : ℚ) ≤ ((MAX_Y - ground : ℤ) : ℚ) * (9/10) / _ :=
      div_nonneg hma (le_of_lt hpos)
    calc (0 : ℚ) ≤ _ * (s * (((MAX_Y - ground : ℤ) : ℚ) * (9/10) / _)) := by
          exact mul_nonneg hrq (mul_nonneg hs hdiv)
      _ = _ := rfl
  · exact mul_nonneg hrq hs

/-! ## Claim C7 -/

/-- C7: for elevation data produced by the pipeline post-processing (with
the i16 wrap of `max_height - min_height` modelled), the derived Minecraft
height is monotone in the raw stored meter value, and every height lies in
`[ground_level, 319]` (the claim presupposes `ground_level ≤ 319`; Rust
`clamp` panics otherwise).  `hs` is nonnegativity of the initial height
scale `0.7 * sqrt(scale)`; `hi16` records that the input raster is a
`Vec<i16>`.  When the span overflows i16 the wrapped range is negative, but
the height stays monotone: the division by the negative range and the
multiplication by the then-nonpositive `scaled_range` (the 0.9 cap cannot
fire on a negative value) invert the order twice. -/
theorem elevation_height_monotone_and_bounded (raw : List ℤ) (w h : Nat)
    (ground : ℤ) (s : ℚ) (hs : 0 ≤ s) (hg : ground ≤ 319)
    (hi16 : ∀ v ∈ raw, -32768 ≤ v ∧ v ≤ 32767)
    (xa za xb zb : Nat)
    (ha : za * w + xa < raw.length) (hb : zb * w + xb < raw.length)
    (hraw : (mkElevationData raw w h ground s).heights.getD (za * w + xa) 0 ≤
      (mkElevationData raw w h ground s).heights.getD (zb * w + xb) 0) :
    (mkElevationData raw w h ground s).height_at xa za ≤
      (mkElevationData raw w h ground s).height_at xb zb ∧
    ground ≤ (mkElevationData raw w h ground s).height_at xa za ∧
    (mkElevationData raw w h ground s).height_at xa za ≤ 319 ∧
    ground ≤ (mkElevationData raw w h ground s).height_at xb zb ∧
    (mkElevationData raw w h ground s).height_at xb zb ≤ 319 := by
  have hne : raw ≠ [] := by
    intro hnil
    rw [hnil] at ha
    simp at ha
  have hgm : ground ≤ MAX_Y := hg
  have hcases := mkElevationData_range_cases raw w h ground s hs hgm hi16 hne
  set d := mkElevationData raw w h ground s with hd
  have hdg : d.ground_level = ground := rfl
  have hdw : d.width = w := rfl
  -- monotonicity of the pre-clamp rational expression
  have hmono : ∀ r1 r2 : ℤ, r1 ≤ r2 →
      ((r1 - d.min_height : ℤ) : ℚ) / ((d.height_range : ℤ) : ℚ) * d.scaled_range ≤
      ((r2 - d.min_height : ℤ) : ℚ) / ((d.height_range : ℤ) : ℚ) * d.scaled_range := by
    intro r1 r2 h12
    have h12q : ((r1 - d.min_height : ℤ) : ℚ) ≤ ((r2 - d.min_height : ℤ) : ℚ) := by
      exact_mod_cast sub_le_sub_right h12 d.min_height
    rcases hcases with hr | ⟨hrneg, hsrdef⟩
    · -- range nonnegative: the scaled range is nonnegative too
      have hsr := mkElevationData_scaled_range_nonneg raw w h ground s hs hgm hr
      rcases eq_or_lt_of_le hr with hz | hpos
      · rw [show ((d.height_range : ℤ) : ℚ) = 0 by exact_mod_cast hz.symm]
        simp
      · have hq : (0 : ℚ) < ((d.height_range : ℤ) : ℚ) := by exact_mod_cast hpos
        rw [div_eq_mul_inv, div_eq_mul_inv]
        exact mul_le_mul_of_nonneg_right
          (mul_le_mul_of_nonneg_right h12q (inv_nonneg.mpr (le_of_lt hq))) hsr
    · -- wrapped negative range: two order-reversing factors cancel
      have hqneg : ((d.height_range : ℤ) : ℚ) < 0 := by exact_mod_cast hrneg
      have hsrnp : d.scaled_range ≤ 0 := by
        rw [hsrdef]
        exact mul_nonpos_iff.mpr (Or.inr ⟨le_of_lt hqneg, hs⟩)
      have hinv : ((d.height_range : ℤ) : ℚ)⁻¹ < 0 := inv_lt_zero.mpr hqneg
      rw [div_eq_mul_inv, div_eq_mul_inv]
      have hflip1 : ((r2 - d.min_height : ℤ) : ℚ) * ((d.height_range : ℤ) : ℚ)⁻¹ ≤
          ((r1 - d.min_height : ℤ) : ℚ) * ((d.height_range : ℤ) : ℚ)⁻¹ :=
        mul_le_mul_of_nonpos_right h12q (le_of_lt hinv)
      exact mul_le_mul_of_nonpos_right hflip1 hsrnp
  have hmain : d.height_at xa za ≤ d.height_at xb zb := by
    unfold ElevationData.height_at
    apply clampI_mono _ _ (show d.ground_level ≤ MAX_Y from hg)
    apply roundRust_mono
    have := hmono (d.heights.getD (za * w + xa) 0) (d.heights.getD (zb * w + xb) 0) hraw
    rw [hdw]
    linarith
  refine ⟨hmain, ?_, ?_, ?_, ?_⟩
  · exact (clampI_bounds (show d.ground_level ≤ MAX_Y from hg) _).1
  · exact (clampI_bounds (show d.ground_level ≤ MAX_Y from hg) _).2
  · exact (clampI_bounds (show d.ground_level ≤ MAX_Y from hg) _).1
  · exact (clampI_bounds (show d.ground_level ≤ MAX_Y from hg) _).2

/-- C7 witness: a concrete 2x1 grid with raw meters 3 and 5, ground level 0
and scale 1. -/
theorem elevation_height_monotone_and_bounded_witness :
    (mkElevationData [3, 5] 2 1 0 1).height_at 0 0 ≤
      (mkElevationData [3, 5] 2 1 0 1).height_at 1 0 ∧
    (0 : ℤ) ≤ (mkElevationData [3, 5] 2 1 0 1).height_at 0 0 ∧
    (mkElevationData [3, 5] 2 1 0 1).height_at 0 0 ≤ 319 ∧
    (0 : ℤ) ≤ (mkElevationData [3, 5] 2 1 0 1).height_at 1 0 ∧
    (mkElevationData [3, 5] 2 1 0 1).height_at 1 0 ≤ 319 :=
  elevation_height_monotone_and_bounded [3, 5] 2 1 0 1 (by norm_num)
    (by norm_num) (by decide) 0 0 1 0 (by decide) (by decide) (by decide)

/-! ## Ground (src/ground.rs) -/

/-- Integer world-block coordinates (`coordinate_system::cartesian::XZPoint`;
nodes are projected to integer coordinates upstream). -/
structure XZPoint where
  x : ℤ
  z : ℤ
deriving DecidableEq, Repr

structure Ground where
  elevation_enabled : Bool
  ground_level : ℤ
  elevation_data : Option ElevationData

/-- `Ground::level`: configured ground level when elevation is disabled or
no data is present, else nearest-cell lookup of the height grid (the f64
ratio arithmetic carried out over `ℚ`, `as usize` saturation via `toNat`). -/
def Ground.level (g : Ground) (coord : XZPoint) : ℤ :=
  match g.elevation_data with
  | none => g.ground_level
  | some data =>
    if g.elevation_enabled = false then g.ground_level
    else
      let xrt := clampQ ((coord.x : ℚ) / (data.width : ℚ)) 0 1
      let zrt := clampQ ((coord.z : ℚ) / (data.height : ℚ)) 0 1
      let xi : Nat := min (roundRust (xrt * ((data.width : ℚ) - 1))).toNat
        (data.width - 1)
      let zi : Nat := min (roundRust (zrt * ((data.height : ℚ) - 1))).toNat
        (data.height - 1)
      data.height_at xi zi

/-- `Ground::min_level` over a finite list of coordinates (the Rust
iterator): configured ground level when elevation is disabled, else the
minimum of `level` over the points (`None` when there are none). -/
def Ground.min_level (g : Ground) (coords : List XZPoint) : Option ℤ :=
  if g.elevation_enabled = false then some g.ground_level
  else (coords.map (fun c => g.level c)).min?

/-- `Ground::ground_level` accessor. -/
def Ground.groundLevel (g : Ground) : ℤ := g.ground_level

/-! ## Water level for closed water areas
(src/element_processing/water_areas.rs, the `default_level` /
`water_level` computation shared by `generate_water_areas_internal` and
`generate_water_area_from_way_internal`) -/

/-- The water level used for a closed relation outer ring or a closed way:
`default_level` is the literal 0; with a ground whose elevation is enabled
it is `ground.min_level` over the outer vertices translated by the world
minimum corner, defaulting to 0. -/
def computeWaterLevel (ground : Option Ground) (outer : List XZPoint)
    (minX minZ : ℤ) : ℤ :=
  match ground with
  | some g =>
    if g.elevation_enabled then
      (g.min_level (outer.map (fun pt => ⟨pt.x - minX, pt.z - minZ⟩))).getD 0
    else 0
  | none => 0

/-! ## Claim C1 -/

/-- C1, counterexample: with a ground present whose elevation is disabled
and whose configured ground level is -62, the water level computed for a
closed water area is the literal 0, not the ground level -62 as the claim
states. -/
theorem water_level_not_ground_level :
    computeWaterLevel (some ⟨false, -62, none⟩) [⟨0, 0⟩] 0 0 = 0 ∧
    Ground.groundLevel ⟨false, -62, none⟩ = -62 ∧ (0 : ℤ) ≠ -62 := by
  exact ⟨rfl, rfl, by decide⟩

/-- C1, amended: when elevation is not enabled (or no ground is present) the
water level is the constant 0 (not the configured ground level); when
elevation is enabled and the outer ring is nonempty, the water level is the
minimum of `Ground.level` over the outer-ring vertices translated into
world-relative coordinates. -/
theorem compute_water_level_spec (ground : Option Ground)
    (outer : List XZPoint) (minX minZ : ℤ) :
    (ground = none ∨ (∃ g, ground = some g ∧ g.elevation_enabled = false) →
      computeWaterLevel ground outer minX minZ = 0) ∧
    (∀ g, ground = some g → g.elevation_enabled = true → outer ≠ [] →
      (∀ pt ∈ outer, computeWaterLevel ground outer minX minZ ≤
        g.level ⟨pt.x - minX, pt.z - minZ⟩) ∧
      (∃ pt ∈ outer, computeWaterLevel ground outer minX minZ =
        g.level ⟨pt.x - minX, pt.z - minZ⟩)) := by
  constructor
  · rintro (hnone | ⟨g, hsome, hdis⟩)
    · rw [hnone]; rfl
    · rw [hsome]
      simp [computeWaterLevel, hdis]
  · intro g hsome hen hne
    subst hsome
    have hcw : computeWaterLevel (some g) outer minX minZ =
        (g.min_level (outer.map
          (fun pt => ⟨pt.x - minX, pt.z - minZ⟩))).getD 0 := by
      simp [computeWaterLevel, hen]
    have hml : g.min_level (outer.map (fun pt => ⟨pt.x - minX, pt.z - minZ⟩)) =
        ((outer.map (fun pt : XZPoint =>
          (⟨pt.x - minX, pt.z - minZ⟩ : XZPoint))).map
            (fun c => g.level c)).min? := by
      simp [Ground.min_level, hen]
    rw [hcw, hml, List.map_map]
    set lv := fun pt : XZPoint => g.level ⟨pt.x - minX, pt.z - minZ⟩ with hlv
    have hmapeq : (outer.map ((fun c => g.level c) ∘ fun pt : XZPoint =>
        (⟨pt.x - minX, pt.z - minZ⟩ : XZPoint))) = outer.map lv := rfl
    rw [hmapeq]
    have hmne : outer.map lv ≠ [] := by
      intro hc
      exact hne (List.map_eq_nil.mp hc)
    obtain ⟨m, hm⟩ := int_min?_isSome hmne
    obtain ⟨hmem, hle⟩ := int_min?_spec hm
    rw [hm]
    constructor
    · intro pt hpt
      exact hle (lv pt) (List.mem_map_of_mem lv hpt)
    · obtain ⟨pt, hpt, hval⟩ := List.mem_map.mp hmem
      exact ⟨pt, hpt, hval.symm⟩

/-- C1 witness for the amended theorem: a ground with elevation enabled but
no data grid makes `level` return the configured level 7, which is then the
minimum over the single vertex. -/
theorem compute_water_level_spec_witness :
    (∀ pt ∈ [(⟨1, 2⟩ : XZPoint)],
      computeWaterLevel (some ⟨true, 7, none⟩) [⟨1, 2⟩] 0 0 ≤
        Ground.level ⟨true, 7, none⟩ ⟨pt.x - 0, pt.z - 0⟩) ∧
    (∃ pt ∈ [(⟨1, 2⟩ : XZPoint)],
      computeWaterLevel (some ⟨true, 7, none⟩) [⟨1, 2⟩] 0 0 =
        Ground.level ⟨true, 7, none⟩ ⟨pt.x - 0, pt.z - 0⟩) :=
  (compute_water_level_spec (some ⟨true, 7, none⟩) [⟨1, 2⟩] 0 0).2
    ⟨true, 7, none⟩ rfl rfl (by decide)

/-! ## OSM processed geometry (osm_parser interface types) -/

structure ProcessedNode where
  id : Nat
  tags : Tags
  x : ℤ
  z : ℤ
deriving DecidableEq, Repr

def ProcessedNode.xz (n : ProcessedNode) : XZPoint := ⟨n.x, n.z⟩

structure ProcessedWay where
  id : Nat
  nodes : List ProcessedNode
  tags : Tags
deriving DecidableEq, Repr

inductive ProcessedMemberRole where
  | outer
  | inner
deriving DecidableEq, Repr

structure ProcessedMember where
  role : ProcessedMemberRole
  way : ProcessedWay
deriving DecidableEq, Repr

structure ProcessedRelation where
  id : Nat
  tags : Tags
  members : List ProcessedMember
deriving DecidableEq, Repr

/-! ## Editor edits (the WorldEditor mutation calls)

src/world_editor.rs is not among the provided sources; the water-area code
interacts with it only through `set_block_absolute(WATER, x, y, z, None,
Some(&[]))` (with those arguments an unconditional in-bounds write) and
`set_biome_absolute(biome, x, y, z)`.  The editor is therefore modelled by
the trace of issued calls. -/

inductive Edit where
  | setBlock (b : Block) (x y z : ℤ)
  | setBiome (bio : Biome) (x y z : ℤ)
deriving DecidableEq, Repr

/-- The water block Y coordinates written to column `(x, z)` in a trace. -/
def waterYsAt (x z : ℤ) (edits : List Edit) : List ℤ :=
  edits.filterMap (fun e =>
    match e with
    | Edit.setBlock b xx y zz =>
      if (b == WATER) && (xx == x) && (zz == z) then some y else none
    | Edit.setBiome _ _ _ _ => none)

/-- Inclusive integer range `a..=b` as a list. -/
def intRangeIncl (a b : ℤ) : List ℤ :=
  (List.range (b - a + 1).toNat).map (fun (i : Nat) => a + (i : ℤ))

/-- Exclusive integer range `a..b` as a list. -/
def intRangeExcl (a b : ℤ) : List ℤ :=
  (List.range (b - a).toNat).map (fun (i : Nat) => a + (i : ℤ))

/-- The cells visited by the nested `for x in min.0..max.0 { for z in
min.1..max.1 }` loops, in loop order. -/
def cellsIn (mn mx : ℤ × ℤ) : List (ℤ × ℤ) :=
  (intRangeExcl mn.1 mx.1) ×ˢ (intRangeExcl mn.2 mx.2)

/-! ## Per-cell water fill (src/element_processing/water_areas.rs)

The per-column body shared verbatim by `inverse_floodfill_iterative`,
`rect_fill` and `fill_from_barriers`: with a ground present, if the terrain
height at the cell is at least the water level, water is written at every y
in `water_level..=terrain`, otherwise (and with no ground) a single water
cell at `water_level`; the biome is written alongside each block. -/
def fillColumn (ground : Option Ground) (waterLevel : ℤ) (biome : Biome)
    (x z minXW minZW : ℤ) : List Edit :=
  match ground with
  | some g =>
    let terrain := g.level ⟨x - minXW, z - minZW⟩
    if waterLevel ≤ terrain then
      (intRangeIncl waterLevel terrain).flatMap (fun y =>
        [Edit.setBlock WATER x y z, Edit.setBiome biome x y z])
    else
      [Edit.setBlock WATER x waterLevel z, Edit.setBiome biome x waterLevel z]
  | none =>
    [Edit.setBlock WATER x waterLevel z, Edit.setBiome biome x waterLevel z]

/-- The fill condition of `inverse_floodfill_iterative`:
`(fill_outside && (!in_outer || in_inner)) || (!fill_outside && in_outer &&
!in_inner)`. -/
def fillDecision (fillOutside inOuter inInner : Bool) : Bool :=
  (fillOutside && (!inOuter || inInner)) || (!fillOutside && inOuter && !inInner)

/-- `inverse_floodfill_iterative`.  The geo-crate polygon/cell intersection
tests (`in_outer`, `in_inner`; f64 computational geometry) are passed in as
the cell predicates `inOuter`, `inInner`; everything else is embedded from
the source.  `minXW, minZW` are `editor.get_min_coords()`. -/
def inverse_floodfill_iterative (mn mx : ℤ × ℤ) (waterLevel : ℤ)
    (inOuter inInner : ℤ → ℤ → Bool) (ground : Option Ground)
    (minXW minZW : ℤ) (fillOutside : Bool) (biome : Biome) : List Edit :=
  (cellsIn mn mx).flatMap (fun c =>
    if fillDecision fillOutside (inOuter c.1 c.2) (inInner c.1 c.2) then
      fillColumn ground waterLevel biome c.1 c.2 minXW minZW
    else [])

/-- `rect_fill`: fill every cell of `min_x..max_x` x `min_z..max_z`
(exclusive upper bounds, as in the source loops). -/
def rect_fill (minX maxX minZ maxZ : ℤ) (waterLevel : ℤ)
    (ground : Option Ground) (minXW minZW : ℤ) (biome : Biome) : List Edit :=
  (cellsIn (minX, minZ) (maxX, maxZ)).flatMap (fun c =>
    fillColumn ground waterLevel biome c.1 c.2 minXW minZW)

/-! ### Trace lemmas -/

theorem waterYsAt_append (x z : ℤ) (e1 e2 : List Edit) :
    waterYsAt x z (e1 ++ e2) = waterYsAt x z e1 ++ waterYsAt x z e2 :=
  List.filterMap_append e1 e2 _

theorem waterYsAt_flatMap {α : Type} (x z : ℤ) (l : List α)
    (g : α → List Edit) :
    waterYsAt x z (l.flatMap g) = l.flatMap (fun a => waterYsAt x z (g a)) := by
  induction l with
  | nil => rfl
  | cons a t ih => rw [List.flatMap_cons, List.flatMap_cons, waterYsAt_append, ih]

theorem flatMap_eq_nil_of_forall {α β : Type} (l : List α) (g : α → List β)
    (h : ∀ a ∈ l, g a = []) : l.flatMap g = [] := by
  induction l with
  | nil => rfl
  | cons a t ih =>
    rw [List.flatMap_cons, h a (List.mem_cons_self a t), List.nil_append]
    exact ih (fun b hb => h b (List.mem_cons_of_mem a hb))

theorem flatMap_eq_single {α β : Type} [DecidableEq α] (l : List α)
    (g : α → List β) (a : α) (hmem : a ∈ l) (hnd : l.Nodup)
    (hz : ∀ b ∈ l, b ≠ a → g b = []) : l.flatMap g = g a := by
  induction l with
  | nil => cases hmem
  | cons h t ih =>
    rcases List.mem_cons.mp hmem with heq | hmt
    · subst heq
      rw [List.flatMap_cons]
      have hnot : a ∉ t := (List.nodup_cons.mp hnd).1
      rw [flatMap_eq_nil_of_forall t g
        (fun b hb => hz b (List.mem_cons_of_mem a hb)
          (fun hc => hnot (hc ▸ hb))), List.append_nil]
    · have hha : h ≠ a := by
        intro hc
        exact (List.nodup_cons.mp hnd).1 (hc ▸ hmt)
      rw [List.flatMap_cons, hz h (List.mem_cons_self h t) hha,
        List.nil_append]
      exact ih hmt (List.nodup_cons.mp hnd).2
        (fun b hb => hz b (List.mem_cons_of_mem h hb))

theorem waterYsAt_pair_self (x z y : ℤ) (biome : Biome) :
    waterYsAt x z [Edit.setBlock WATER x y z, Edit.setBiome biome x y z] =
      [y] := by
  simp [waterYsAt, List.filterMap_cons]

theorem waterYsAt_pair_other (x z xo zo y : ℤ) (biome : Biome)
    (hne : ¬(xo = x ∧ zo = z)) :
    waterYsAt x z [Edit.setBlock WATER xo y zo, Edit.setBiome biome xo y zo] =
      [] := by
  have hcond : (((WATER == WATER) && (xo == x)) && (zo == z)) = false := by
    by_cases h1 : xo = x
    · by_cases h2 : zo = z
      · exact absurd ⟨h1, h2⟩ hne
      · simp [h2]
    · simp [h1]
  simp [waterYsAt, List.filterMap_cons, hne]

theorem waterYsAt_column_blocks (x z : ℤ) (biome : Biome) (l : List ℤ) :
    waterYsAt x z (l.flatMap (fun y =>
      [Edit.setBlock WATER x y z, Edit.setBiome biome x y z])) = l := by
  induction l with
  | nil => rfl
  | cons y t ih =>
    rw [List.flatMap_cons, waterYsAt_append, ih, waterYsAt_pair_self]
    rfl

theorem waterYsAt_column_blocks_other (x z xo zo : ℤ) (biome : Biome)
    (l : List ℤ) (hne : ¬(xo = x ∧ zo = z)) :
    waterYsAt x z (l.flatMap (fun y =>
      [Edit.setBlock WATER xo y zo, Edit.setBiome biome xo y zo])) = [] := by
  induction l with
  | nil => rfl
  | cons y t ih =>
    rw [List.flatMap_cons, waterYsAt_append, ih,
      waterYsAt_pair_other x z xo zo y biome hne]
    rfl

theorem fillColumn_waterYs_self (ground : Option Ground) (wl : ℤ)
    (biome : Biome) (x z minXW minZW : ℤ) :
    waterYsAt x z (fillColumn ground wl biome x z minXW minZW) =
      (match ground with
       | some g =>
         if wl ≤ g.level ⟨x - minXW, z - minZW⟩ then
           intRangeIncl wl (g.level ⟨x - minXW, z - minZW⟩)
         else [wl]
       | none => [wl]) := by
  cases ground with
  | none => exact waterYsAt_pair_self x z wl biome
  | some g =>
    show waterYsAt x z (if _ then _ else _) = (if _ then _ else _)
    split_ifs with hterr
    · exact waterYsAt_column_blocks x z biome _
    · exact waterYsAt_pair_self x z wl biome

theorem fillColumn_waterYs_other (ground : Option Ground) (wl : ℤ)
    (biome : Biome) (x z xo zo minXW minZW : ℤ) (hne : ¬(xo = x ∧ zo = z)) :
    waterYsAt x z (fillColumn ground wl biome xo zo minXW minZW) = [] := by
  cases ground with
  | none => exact waterYsAt_pair_other x z xo zo wl biome hne
  | some g =>
    show waterYsAt x z (if _ then _ else _) = []
    split_ifs with hterr
    · exact waterYsAt_column_blocks_other x z xo zo biome _ hne
    · exact waterYsAt_pair_other x z xo zo wl biome hne

theorem intRangeExcl_nodup (a b : ℤ) : (intRangeExcl a b).Nodup := by
  unfold intRangeExcl
  refine List.Nodup.map (fun i j h => ?_) (List.nodup_range _)
  omega

theorem mem_intRangeExcl {a b x : ℤ} :
    x ∈ intRangeExcl a b ↔ a ≤ x ∧ x < b := by
  unfold intRangeExcl
  constructor
  · intro hx
    obtain ⟨i, hi, hix⟩ := List.mem_map.mp hx
    rw [List.mem_range] at hi
    omega
  · intro hh
    refine List.mem_map.mpr ⟨(x - a).toNat, ?_, ?_⟩
    · rw [List.mem_range]
      omega
    · omega

theorem cellsIn_nodup (mn mx : ℤ × ℤ) : (cellsIn mn mx).Nodup :=
  List.Nodup.product (intRangeExcl_nodup _ _) (intRangeExcl_nodup _ _)

theorem mem_cellsIn {mn mx : ℤ × ℤ} {c : ℤ × ℤ} :
    c ∈ cellsIn mn mx ↔
      (mn.1 ≤ c.1 ∧ c.1 < mx.1) ∧ (mn.2 ≤ c.2 ∧ c.2 < mx.2) := by
  obtain ⟨c1, c2⟩ := c
  unfold cellsIn
  rw [List.mem_product, mem_intRangeExcl, mem_intRangeExcl]

/-! ## Claim C2 -/

/-- C2, counterexample: the claim says that with elevation disabled exactly
one water cell is placed at `y = water_level`; but with a ground present
whose elevation is disabled and whose ground level is 5, water level 0, the
iterative fill writes water at y = 0..5 (six cells) for the selected cell,
because `Ground::level` returns the configured ground level 5 and the
terrain >= water-level branch is taken. -/
theorem disabled_elevation_fills_column :
    waterYsAt 0 0 (inverse_floodfill_iterative (0, 0) (1, 1) 0
      (fun _ _ => true) (fun _ _ => false) (some ⟨false, 5, none⟩) 0 0 false
      PLAINS) = [0, 1, 2, 3, 4, 5] ∧
    (⟨false, 5, none⟩ : Ground).elevation_enabled = false ∧
    ([0, 1, 2, 3, 4, 5] : List ℤ) ≠ [0] := by
  exact ⟨by decide, rfl, by decide⟩

/-- C2, amended: for every cell selected by the iterative fill condition
(and every cell of a `rect_fill` quadrant): if a ground is present and the
terrain height at the cell is at least the water level — including grounds
with elevation disabled, for which the terrain is the configured ground
level — water is placed at exactly the levels `water_level..=terrain`;
otherwise (ground absent, or terrain strictly below water level) exactly
one water cell is placed, at `water_level`.  Unselected cells receive no
water. -/
theorem water_cell_fill_spec (mn mx : ℤ × ℤ) (wl : ℤ)
    (inOuter inInner : ℤ → ℤ → Bool) (ground : Option Ground)
    (minXW minZW : ℤ) (fo : Bool) (biome : Biome) (x z : ℤ)
    (hx : mn.1 ≤ x ∧ x < mx.1) (hz : mn.2 ≤ z ∧ z < mx.2) :
    waterYsAt x z (inverse_floodfill_iterative mn mx wl inOuter inInner
        ground minXW minZW fo biome) =
      (if fillDecision fo (inOuter x z) (inInner x z) then
        (match ground with
         | some g =>
           if wl ≤ g.level ⟨x - minXW, z - minZW⟩ then
             intRangeIncl wl (g.level ⟨x - minXW, z - minZW⟩)
           else [wl]
         | none => [wl])
       else []) ∧
    waterYsAt x z (rect_fill mn.1 mx.1 mn.2 mx.2 wl ground minXW minZW
        biome) =
      (match ground with
       | some g =>
         if wl ≤ g.level ⟨x - minXW, z - minZW⟩ then
           intRangeIncl wl (g.level ⟨x - minXW, z - minZW⟩)
         else [wl]
       | none => [wl]) := by
  have hmem : (x, z) ∈ cellsIn mn mx := mem_cellsIn.mpr ⟨hx, hz⟩
  constructor
  · unfold inverse_floodfill_iterative
    rw [waterYsAt_flatMap]
    rw [flatMap_eq_single _ _ (x, z) hmem (cellsIn_nodup mn mx) ?_]
    · show waterYsAt x z (if _ then _ else _) = _
      split_ifs with hdec
      · exact fillColumn_waterYs_self ground wl biome x z minXW minZW
      · rfl
    · intro b hb hbne
      show waterYsAt x z (if _ then _ else _) = _
      split_ifs with hdec
      · exact fillColumn_waterYs_other ground wl biome x z b.1 b.2 minXW minZW
          (fun hc => hbne (Prod.ext hc.1 hc.2))
      · rfl
  · unfold rect_fill
    rw [waterYsAt_flatMap]
    rw [flatMap_eq_single _ _ (x, z) hmem (cellsIn_nodup mn mx) ?_]
    · exact fillColumn_waterYs_self ground wl biome x z minXW minZW
    · intro b hb hbne
      exact fillColumn_waterYs_other ground wl biome x z b.1 b.2 minXW minZW
        (fun hc => hbne (Prod.ext hc.1 hc.2))

/-- C2 witness: the single cell (0,0) of a 1x1 region, no ground, water
level 3: exactly one water cell at y = 3 on both fill paths. -/
theorem water_cell_fill_spec_witness :
    waterYsAt 0 0 (inverse_floodfill_iterative (0, 0) (1, 1) 3
        (fun _ _ => true) (fun _ _ => false) none 0 0 false PLAINS) =
      (if fillDecision false true false then [3] else []) ∧
    waterYsAt 0 0 (rect_fill 0 1 0 1 3 none 0 0 PLAINS) = [3] :=
  water_cell_fill_spec (0, 0) (1, 1) 3 (fun _ _ => true) (fun _ _ => false)
    none 0 0 false PLAINS 0 0 (by decide) (by decide)

/-! ## Tag gates of the water-area filler (claim C6) -/

/-- Rust `str::parse::<i32>`: optional sign, then decimal digits only,
rejecting the empty digit string and values outside the i32 range. -/
def digitsVal (l : List Char) : Nat :=
  l.foldl (fun a c => a * 10 + (c.toNat - 48)) 0

def parseI32 (s : String) : Option ℤ :=
  let p : Bool × List Char :=
    match s.data with
    | '+' :: r => (false, r)
    | '-' :: r => (true, r)
    | r => (false, r)
  if p.2 = [] then none
  else if p.2.all Char.isDigit = false then none
  else
    let v : ℤ := if p.1 then -(digitsVal p.2 : ℤ) else (digitsVal p.2 : ℤ)
    if v < -2147483648 then none else if 2147483647 < v then none else some v

/-- The relation acceptance test of `generate_water_areas_internal`:
`water` present, or `natural=water`, or `waterway=riverbank`. -/
def isWaterRelTags (tags : Tags) : Bool :=
  tagHas tags ("water") || tagGet tags ("natural") == some ("water")
    || tagGet tags ("waterway") == some ("riverbank")

/-- The way acceptance test of `generate_water_area_from_way_internal`:
additionally `water=river`, or `waterway=river` together with `area=yes`. -/
def isWaterWayTags (tags : Tags) : Bool :=
  tagHas tags ("water") || tagGet tags ("natural") == some ("water")
    || tagGet tags ("waterway") == some ("riverbank")
    || tagGet tags ("water") == some ("river")
    || (tagGet tags ("waterway") == some ("river")
        && tagGet tags ("area") == some ("yes"))

/-- The layer drop test: `layer.parse::<i32>().map(|x| x < 0)
.unwrap_or(false)`. -/
def layerNeg (tags : Tags) : Bool :=
  match tagGet tags ("layer") with
  | some layer =>
    match parseI32 layer with
    | some n => decide (n < 0)
    | none => false
  | none => false

/-- `generate_water_areas_internal`, head: the tag and layer gates in
source order; the accepted path (ring assembly, clipping, water level and
fill) is abstracted as `body`, since the frame claim holds for every
continuation. -/
def generate_water_areas_internal {E : Type}
    (body : E → ProcessedRelation → Bool → E) (editor : E)
    (element : ProcessedRelation) (fillOutside : Bool) : E :=
  if !fillOutside && !isWaterRelTags element.tags then editor
  else if layerNeg element.tags then editor
  else body editor element fillOutside

/-- `generate_water_area_from_way_internal`, head: same shape with the way
acceptance test. -/
def generate_water_area_from_way_internal {E : Type}
    (body : E → ProcessedWay → Bool → E) (editor : E) (way : ProcessedWay)
    (fillOutside : Bool) : E :=
  if !fillOutside && !isWaterWayTags way.tags then editor
  else if layerNeg way.tags then editor
  else body editor way fillOutside

/-! ## Claim C6 -/

/-- C6: in non-coastline mode, a relation or way that fails every
acceptance condition, or whose `layer` tag parses to a negative integer,
causes the water-area filler to return the editor unchanged — for any
continuation `body` the gated call is the identity on the editor. -/
theorem water_area_gate_no_edit {E : Type}
    (bodyR : E → ProcessedRelation → Bool → E)
    (bodyW : E → ProcessedWay → Bool → E) (editor1 editor2 : E)
    (rel : ProcessedRelation) (way : ProcessedWay)
    (hrel : isWaterRelTags rel.tags = false ∨ layerNeg rel.tags = true)
    (hway : isWaterWayTags way.tags = false ∨ layerNeg way.tags = true) :
    generate_water_areas_internal bodyR editor1 rel false = editor1 ∧
    generate_water_area_from_way_internal bodyW editor2 way false =
      editor2 := by
  constructor
  · rcases hrel with h | h
    · simp [generate_water_areas_internal, h]
    · cases hiw : isWaterRelTags rel.tags <;>
        simp [generate_water_areas_internal, hiw, h]
  · rcases hway with h | h
    · simp [generate_water_area_from_way_internal, h]
    · cases hiw : isWaterWayTags way.tags <;>
        simp [generate_water_area_from_way_internal, hiw, h]

/-- C6 witness: an untagged relation and a way tagged `layer=-2`,
`natural=water`, with a counting continuation, leave the editor value
unchanged. -/
theorem water_area_gate_no_edit_witness :
    generate_water_areas_internal (fun (e : Nat) _ _ => e + 1) 41
      ⟨1, [], []⟩ false = 41 ∧
    generate_water_area_from_way_internal (fun (e : Nat) _ _ => e + 1) 99
      ⟨2, [], [("natural", "water"), ("layer", "-2")]⟩ false = 99 :=
  water_area_gate_no_edit (fun e _ _ => e + 1) (fun e _ _ => e + 1) 41 99
    ⟨1, [], []⟩ ⟨2, [], [("natural", "water"), ("layer", "-2")]⟩
    (Or.inl (by decide)) (Or.inr (by decide))

/-! ## Elevation tile fetch (src/elevation_data.rs, claim C8)

The per-tile load of `fetch_elevation_data` (the cached / downloaded tile
branch) and `download_tile`, modelled over an environment recording the
cache content, the network fetch outcome, and the image decoder. -/

inductive TileError where
  | network
  | decode
deriving DecidableEq, Repr

structure TileEnv (B I : Type) where
  /-- Content of the on-disk cache file for this tile, if present. -/
  cached : Option B
  /-- Outcome of the HTTP fetch (`send`/status/`bytes`); `none` is a
  network failure. -/
  fetch : Option B
  /-- `image` decoding of a byte blob (`image::open` on the cached file,
  `image::load_from_memory` on fetched bytes). -/
  decode : B → Option I

/-- `download_tile`: fetch from the tile URL, persist, decode; every `?`
propagates. -/
def download_tile {B I : Type} (env : TileEnv B I) : Except TileError I :=
  match env.fetch with
  | none => Except.error TileError.network
  | some bytes =>
    match env.decode bytes with
    | some img => Except.ok img
    | none => Except.error TileError.decode

/-- The per-tile branch of `fetch_elevation_data`: use the cached file if
it decodes, on a cached decode failure fall back to `download_tile` (whose
own failure propagates via `?`), and with no cached file call
`download_tile` directly.  The second component counts the fresh fetches
performed. -/
def load_tile {B I : Type} (env : TileEnv B I) : Except TileError I × Nat :=
  match env.cached with
  | some bytes =>
    match env.decode bytes with
    | some img => (Except.ok img, 0)
    | none => (download_tile env, 1)
  | none => (download_tile env, 1)

/-! ## Claim C8 -/

/-- C8, counterexample: the claim says every tile whose decode fails is
retried with one fresh fetch, the error propagating only if that second
attempt also fails; but for an uncached tile whose freshly downloaded
bytes fail to decode, the decode error propagates immediately after the
single fetch, with no retry. -/
theorem fresh_decode_failure_not_retried :
    ∃ env : TileEnv Unit Unit, env.cached = none ∧
      (load_tile env).1 = Except.error TileError.decode ∧
      (load_tile env).2 = 1 :=
  ⟨⟨none, some (), fun _ => none⟩, rfl, rfl, rfl⟩

/-- C8, amended: a cached tile file that fails to decode triggers exactly
one fresh fetch and the call returns that fetch's outcome (so cache
corruption is not fatal when the refetch succeeds, and the error
propagates when the refetch fails); a cached tile that decodes is used
with no fetch; an uncached tile is fetched once, a decode failure of the
freshly downloaded bytes propagating without any retry. -/
theorem tile_decode_retry_spec {B I : Type} (env : TileEnv B I) :
    (∀ b, env.cached = some b → env.decode b = none →
      load_tile env = (download_tile env, 1)) ∧
    (∀ b img, env.cached = some b → env.decode b = some img →
      load_tile env = (Except.ok img, 0)) ∧
    (env.cached = none → load_tile env = (download_tile env, 1)) := by
  refine ⟨?_, ?_, ?_⟩
  · intro b hb hdec
    simp [load_tile, hb, hdec]
  · intro b img hb hdec
    simp [load_tile, hb, hdec]
  · intro hb
    simp [load_tile, hb]

/-- C8 witness: a corrupt cached blob (`false`) with a healthy fetch
(`true`): one fresh fetch, successful outcome. -/
theorem tile_decode_retry_spec_witness :
    load_tile (⟨some false, some true,
      fun b => if b then some () else none⟩ : TileEnv Bool Unit) =
      (Except.ok (), 1) := by
  rw [(tile_decode_retry_spec (⟨some false, some true,
    fun b => if b then some () else none⟩ : TileEnv Bool Unit)).1 false
    rfl (by decide)]
  rfl

/-! ## World-rectangle perimeter sealing
(src/element_processing/water_areas.rs: `in_bounds`, `draw_along_border`,
`rasterize_and_seal`)

The boolean barrier grid `Vec<Vec<bool>>` (indexed `[z - min_z][x - min_x]`)
is modelled as a function from world cells to `Bool`. -/

/-- `in_bounds`. -/
def in_bounds (x z minX minZ maxX maxZ : ℤ) : Bool :=
  decide (minX ≤ x ∧ x ≤ maxX ∧ minZ ≤ z ∧ z ≤ maxZ)

/-- The `idx` closure of `draw_along_border`: position of a perimeter cell
in clockwise order starting at the top-left corner. -/
def perimIdx (minX minZ maxX maxZ : ℤ) (p : ℤ × ℤ) : ℤ :=
  if p.2 = minZ then p.1 - minX
  else if p.1 = maxX then (maxX - minX) + (p.2 - minZ)
  else if p.2 = maxZ then (maxX - minX) + (maxZ - minZ) + (maxX - p.1)
  else 2 * (maxX - minX) + (maxZ - minZ) + (maxZ - p.2)

/-- `perimeter = 2 * (width + height) - 4`. -/
def perimLen (minX minZ maxX maxZ : ℤ) : ℤ :=
  2 * ((maxX - minX + 1) + (maxZ - minZ + 1)) - 4

/-- The clockwise movement step of the `draw_along_border` loop. -/
def stepCW (minX minZ maxX maxZ : ℤ) (p : ℤ × ℤ) : ℤ × ℤ :=
  if p.2 = minZ ∧ p.1 < maxX then (p.1 + 1, p.2)
  else if p.1 = maxX ∧ p.2 < maxZ then (p.1, p.2 + 1)
  else if p.2 = maxZ ∧ minX < p.1 then (p.1 - 1, p.2)
  else if p.1 = minX ∧ minZ < p.2 then (p.1, p.2 - 1)
  else p

/-- The counter-clockwise movement step of the `draw_along_border` loop. -/
def stepCCW (minX minZ maxX maxZ : ℤ) (p : ℤ × ℤ) : ℤ × ℤ :=
  if p.2 = minZ ∧ minX < p.1 then (p.1 - 1, p.2)
  else if p.1 = minX ∧ p.2 < maxZ then (p.1, p.2 + 1)
  else if p.2 = maxZ ∧ p.1 < maxX then (p.1 + 1, p.2)
  else if p.1 = maxX ∧ minZ < p.2 then (p.1, p.2 - 1)
  else p

/-- The clockwise perimeter distance `(idx_to - idx_from + perimeter) %
perimeter` of `draw_along_border`. -/
def cwDist (minX minZ maxX maxZ : ℤ) (a b : ℤ × ℤ) : ℤ :=
  (perimIdx minX minZ maxX maxZ b - perimIdx minX minZ maxX maxZ a +
    perimLen minX minZ maxX maxZ) % perimLen minX minZ maxX maxZ

/-- The counter-clockwise perimeter distance. -/
def ccwDist (minX minZ maxX maxZ : ℤ) (a b : ℤ × ℤ) : ℤ :=
  (perimIdx minX minZ maxX maxZ a - perimIdx minX minZ maxX maxZ b +
    perimLen minX minZ maxX maxZ) % perimLen minX minZ maxX maxZ

/-- The cells visited by the `for _ in 0..=steps` loop of
`draw_along_border` (mark, break on reaching the target, move). -/
def drawTrace (step : ℤ × ℤ → ℤ × ℤ) (target : ℤ × ℤ) :
    Nat → (ℤ × ℤ) → List (ℤ × ℤ)
  | 0, _ => []
  | n + 1, c => c :: (if c = target then [] else drawTrace step target n (step c))

/-- Mark a list of cells in the barrier grid, counting the cells that were
not already marked (the `seals` counter). -/
def markTrace : List (ℤ × ℤ) → ((ℤ × ℤ) → Bool) → (((ℤ × ℤ) → Bool) × ℤ)
  | [], m => (m, 0)
  | c :: rest, m =>
    let hit := m c
    let r := markTrace rest (fun q => if q = c then true else m q)
    (r.1, if hit then r.2 else r.2 + 1)

/-- `draw_along_border`: walk the shorter perimeter arc from `f` to `t`
(clockwise on ties), marking each visited cell; returns the updated barrier
and the number of newly marked cells. -/
def draw_along_border (minX minZ maxX maxZ : ℤ) (f t : ℤ × ℤ)
    (barrier : (ℤ × ℤ) → Bool) : (((ℤ × ℤ) → Bool) × ℤ) :=
  let cw := cwDist minX minZ maxX maxZ f t
  let ccw := ccwDist minX minZ maxX maxZ f t
  let steps := if cw ≤ ccw then cw else ccw
  let trace := drawTrace
    (if cw ≤ ccw then stepCW minX minZ maxX maxZ
     else stepCCW minX minZ maxX maxZ) t (steps.toNat + 1) f
  markTrace trace barrier

/-! ### Perimeter geometry lemmas (claim C9) -/

/-- Membership of a cell in the world-rectangle perimeter. -/
def onPerim (minX minZ maxX maxZ : ℤ) (p : ℤ × ℤ) : Prop :=
  (p.2 = minZ ∨ p.1 = maxX ∨ p.2 = maxZ ∨ p.1 = minX) ∧
    minX ≤ p.1 ∧ p.1 ≤ maxX ∧ minZ ≤ p.2 ∧ p.2 ≤ maxZ

instance decOnPerim (minX minZ maxX maxZ : ℤ) (p : ℤ × ℤ) :
    Decidable (onPerim minX minZ maxX maxZ p) := by
  unfold onPerim
  infer_instance

/-- Inverse of `perimIdx` on `[0, perimeter)` (proof device; not part of
the source). -/
def cellAt (minX minZ maxX maxZ k : ℤ) : ℤ × ℤ :=
  if k ≤ maxX - minX then (minX + k, minZ)
  else if k ≤ (maxX - minX) + (maxZ - minZ) then
    (maxX, minZ + (k - (maxX - minX)))
  else if k ≤ 2 * (maxX - minX) + (maxZ - minZ) then
    (maxX - (k - (maxX - minX) - (maxZ - minZ)), maxZ)
  else (minX, maxZ - (k - 2 * (maxX - minX) - (maxZ - minZ)))

theorem perimLen_pos (minX minZ maxX maxZ : ℤ) (hx : minX < maxX)
    (hz : minZ < maxZ) : 0 < perimLen minX minZ maxX maxZ := by
  unfold perimLen
  omega

theorem perimIdx_bounds (minX minZ maxX maxZ : ℤ) (hx : minX < maxX)
    (hz : minZ < maxZ) (p : ℤ × ℤ) (hp : onPerim minX minZ maxX maxZ p) :
    0 ≤ perimIdx minX minZ maxX maxZ p ∧
      perimIdx minX minZ maxX maxZ p < perimLen minX minZ maxX maxZ := by
  obtain ⟨p1, p2⟩ := p
  unfold onPerim at hp
  dsimp only at hp
  unfold perimIdx perimLen
  dsimp only
  split_ifs <;> omega

theorem cellAt_perimIdx (minX minZ maxX maxZ : ℤ) (hx : minX < maxX)
    (hz : minZ < maxZ) (p : ℤ × ℤ) (hp : onPerim minX minZ maxX maxZ p) :
    cellAt minX minZ maxX maxZ (perimIdx minX minZ maxX maxZ p) = p := by
  obtain ⟨p1, p2⟩ := p
  unfold onPerim at hp
  dsimp only at hp
  unfold perimIdx cellAt
  dsimp only
  split_ifs <;>
    (simp only [Prod.mk.injEq]; exact ⟨by omega, by omega⟩)

theorem perimIdx_inj (minX minZ maxX maxZ : ℤ) (hx : minX < maxX)
    (hz : minZ < maxZ) {p q : ℤ × ℤ} (hp : onPerim minX minZ maxX maxZ p)
    (hq : onPerim minX minZ maxX maxZ q)
    (h : perimIdx minX minZ maxX maxZ p = perimIdx minX minZ maxX maxZ q) :
    p = q := by
  have h1 := cellAt_perimIdx minX minZ maxX maxZ hx hz p hp
  have h2 := cellAt_perimIdx minX minZ maxX maxZ hx hz q hq
  rw [← h1, ← h2, h]

theorem stepCW_onPerim (minX minZ maxX maxZ : ℤ) (hx : minX < maxX)
    (hz : minZ < maxZ) (p : ℤ × ℤ) (hp : onPerim minX minZ maxX maxZ p) :
    onPerim minX minZ maxX maxZ (stepCW minX minZ maxX maxZ p) := by
  obtain ⟨p1, p2⟩ := p
  unfold onPerim at hp
  dsimp only at hp
  unfold stepCW
  dsimp only
  split_ifs <;> (unfold onPerim; dsimp only; omega)

theorem stepCCW_onPerim (minX minZ maxX maxZ : ℤ) (hx : minX < maxX)
    (hz : minZ < maxZ) (p : ℤ × ℤ) (hp : onPerim minX minZ maxX maxZ p) :
    onPerim minX minZ maxX maxZ (stepCCW minX minZ maxX maxZ p) := by
  obtain ⟨p1, p2⟩ := p
  unfold onPerim at hp
  dsimp only at hp
  unfold stepCCW
  dsimp only
  split_ifs <;> (unfold onPerim; dsimp only; omega)

theorem stepCW_idx (minX minZ maxX maxZ : ℤ) (hx : minX < maxX)
    (hz : minZ < maxZ) (p : ℤ × ℤ) (hp : onPerim minX minZ maxX maxZ p) :
    perimIdx minX minZ maxX maxZ (stepCW minX minZ maxX maxZ p) =
        perimIdx minX minZ maxX maxZ p + 1 ∧
      perimIdx minX minZ maxX maxZ p + 1 < perimLen minX minZ maxX maxZ ∨
    perimIdx minX minZ maxX maxZ p = perimLen minX minZ maxX maxZ - 1 ∧
      perimIdx minX minZ maxX maxZ (stepCW minX minZ maxX maxZ p) = 0 := by
  obtain ⟨p1, p2⟩ := p
  unfold onPerim at hp
  dsimp only at hp
  unfold stepCW
  dsimp only
  split_ifs <;> (unfold perimIdx perimLen; dsimp only; split_ifs <;> omega)

theorem stepCCW_idx (minX minZ maxX maxZ : ℤ) (hx : minX < maxX)
    (hz : minZ < maxZ) (p : ℤ × ℤ) (hp : onPerim minX minZ maxX maxZ p) :
    perimIdx minX minZ maxX maxZ (stepCCW minX minZ maxX maxZ p) =
        perimIdx minX minZ maxX maxZ p - 1 ∧
      0 < perimIdx minX minZ maxX maxZ p ∨
    perimIdx minX minZ maxX maxZ p = 0 ∧
      perimIdx minX minZ maxX maxZ (stepCCW minX minZ maxX maxZ p) =
        perimLen minX minZ maxX maxZ - 1 := by
  obtain ⟨p1, p2⟩ := p
  unfold onPerim at hp
  dsimp only at hp
  unfold stepCCW
  dsimp only
  split_ifs <;> (unfold perimIdx perimLen; dsimp only; split_ifs <;> omega)

theorem emod_add_cancel (d P : ℤ) : (d + P) % P = d % P := by
  have h := Int.add_mul_emod_self_left d P 1
  rw [mul_one] at h
  exact h

theorem emod_pred {P q r : ℤ} (hP : 0 < P) (hqr : q % P = r) (hr : 0 < r) :
    (q - 1) % P = r - 1 := by
  have hdiv := Int.emod_add_ediv q P
  have hrP : r < P := by
    rw [← hqr]
    exact Int.emod_lt_of_pos q hP
  have hq : q - 1 = (r - 1) + P * (q / P) := by omega
  rw [hq, Int.add_mul_emod_self_left]
  exact Int.emod_eq_of_lt (by omega) (by omega)

theorem cwDist_nonneg (minX minZ maxX maxZ : ℤ) (hx : minX < maxX)
    (hz : minZ < maxZ) (a b : ℤ × ℤ) :
    0 ≤ cwDist minX minZ maxX maxZ a b := by
  unfold cwDist
  exact Int.emod_nonneg _ (by have := perimLen_pos minX minZ maxX maxZ hx hz; omega)

theorem ccwDist_nonneg (minX minZ maxX maxZ : ℤ) (hx : minX < maxX)
    (hz : minZ < maxZ) (a b : ℤ × ℤ) :
    0 ≤ ccwDist minX minZ maxX maxZ a b := by
  unfold ccwDist
  exact Int.emod_nonneg _ (by have := perimLen_pos minX minZ maxX maxZ hx hz; omega)

theorem arith_dist_zero {P i j : ℤ} (hP : 0 < P) (hi : 0 ≤ i ∧ i < P)
    (hj : 0 ≤ j ∧ j < P) (h0 : (j - i + P) % P = 0) : i = j := by
  rw [emod_add_cancel] at h0
  by_cases hd : 0 ≤ j - i
  · have h1 : (j - i) % P = j - i := Int.emod_eq_of_lt hd (by omega)
    omega
  · have h1 : (j - i) % P = (j - i + P) % P := (emod_add_cancel _ _).symm
    have h2 : (j - i + P) % P = j - i + P :=
      Int.emod_eq_of_lt (by omega) (by omega)
    omega

/-- Clockwise-step decrement, in pure modular arithmetic: `i` the index of
the current cell, `j` the index of the target cell, `k` the index after one
clockwise step. -/
theorem arith_dist_step_cw {P i j k : ℤ} (hP : 0 < P) (hi : 0 ≤ i ∧ i < P)
    (hj : 0 ≤ j ∧ j < P)
    (hk : (k = i + 1 ∧ i + 1 < P) ∨ (i = P - 1 ∧ k = 0))
    (hne : (j - i + P) % P ≠ 0) :
    (j - k + P) % P = (j - i + P) % P - 1 := by
  rcases hk with ⟨hk1, hk2⟩ | ⟨hk1, hk2⟩
  · subst hk1
    have h1 : j - (i + 1) + P = (j - i + P) - 1 := by omega
    rw [h1]
    refine emod_pred hP rfl ?_
    have := Int.emod_nonneg (j - i + P) (show P ≠ 0 by omega)
    omega
  · subst hk2
    subst hk1
    have hlhs : (j - 0 + P) % P = j := by
      rw [sub_zero, emod_add_cancel, Int.emod_eq_of_lt hj.1 hj.2]
    have hform : j - (P - 1) + P = j + 1 := by omega
    rw [hform] at hne
    rw [hlhs, hform]
    by_cases hjt : j + 1 = P
    · exact absurd (by rw [hjt]; exact Int.emod_self) hne
    · have h2 : (j + 1) % P = j + 1 :=
        Int.emod_eq_of_lt (by omega) (by omega)
      omega

/-- Counter-clockwise-step decrement, in pure modular arithmetic. -/
theorem arith_dist_step_ccw {P i j k : ℤ} (hP : 0 < P) (hi : 0 ≤ i ∧ i < P)
    (hj : 0 ≤ j ∧ j < P)
    (hk : (k = i - 1 ∧ 0 < i) ∨ (i = 0 ∧ k = P - 1))
    (hne : (i - j + P) % P ≠ 0) :
    (k - j + P) % P = (i - j + P) % P - 1 := by
  rcases hk with ⟨hk1, hk2⟩ | ⟨hk1, hk2⟩
  · subst hk1
    have h1 : i - 1 - j + P = (i - j + P) - 1 := by omega
    rw [h1]
    refine emod_pred hP rfl ?_
    have := Int.emod_nonneg (i - j + P) (show P ≠ 0 by omega)
    omega
  · subst hk2
    subst hk1
    have hform : (0 : ℤ) - j + P = P - j := by omega
    rw [hform] at hne ⊢
    have hlhs : P - 1 - j + P = (P - 1 - j) + P := by omega
    by_cases hj0 : j = 0
    · exact absurd (by rw [hj0, sub_zero]; exact Int.emod_self) hne
    · have h1 : (P - 1 - j + P) % P = P - 1 - j := by
        rw [hlhs, emod_add_cancel]
        exact Int.emod_eq_of_lt (by omega) (by omega)
      have h2 : (P - j) % P = P - j :=
        Int.emod_eq_of_lt (by omega) (by omega)
      omega

theorem cwDist_zero_iff (minX minZ maxX maxZ : ℤ) (hx : minX < maxX)
    (hz : minZ < maxZ) (a b : ℤ × ℤ) (ha : onPerim minX minZ maxX maxZ a)
    (hb : onPerim minX minZ maxX maxZ b) :
    (cwDist minX minZ maxX maxZ a b = 0 ↔ a = b) := by
  have hP := perimLen_pos minX minZ maxX maxZ hx hz
  have hba := perimIdx_bounds minX minZ maxX maxZ hx hz a ha
  have hbb := perimIdx_bounds minX minZ maxX maxZ hx hz b hb
  constructor
  · intro h0
    exact perimIdx_inj minX minZ maxX maxZ hx hz ha hb
      (arith_dist_zero hP hba hbb h0)
  · intro hab
    subst hab
    show (perimIdx minX minZ maxX maxZ a - perimIdx minX minZ maxX maxZ a +
      perimLen minX minZ maxX maxZ) % perimLen minX minZ maxX maxZ = 0
    rw [sub_self, zero_add, Int.emod_self]

theorem ccwDist_eq_cwDist_swap (minX minZ maxX maxZ : ℤ) (a b : ℤ × ℤ) :
    ccwDist minX minZ maxX maxZ a b = cwDist minX minZ maxX maxZ b a := rfl

theorem ccwDist_zero_iff (minX minZ maxX maxZ : ℤ) (hx : minX < maxX)
    (hz : minZ < maxZ) (a b : ℤ × ℤ) (ha : onPerim minX minZ maxX maxZ a)
    (hb : onPerim minX minZ maxX maxZ b) :
    (ccwDist minX minZ maxX maxZ a b = 0 ↔ a = b) := by
  rw [ccwDist_eq_cwDist_swap]
  rw [cwDist_zero_iff minX minZ maxX maxZ hx hz b a hb ha]
  exact eq_comm

theorem cwDist_step (minX minZ maxX maxZ : ℤ) (hx : minX < maxX)
    (hz : minZ < maxZ) (a x : ℤ × ℤ) (ha : onPerim minX minZ maxX maxZ a)
    (hxx : onPerim minX minZ maxX maxZ x)
    (hne : cwDist minX minZ maxX maxZ a x ≠ 0) :
    cwDist minX minZ maxX maxZ (stepCW minX minZ maxX maxZ a) x =
      cwDist minX minZ maxX maxZ a x - 1 := by
  have hP := perimLen_pos minX minZ maxX maxZ hx hz
  have hba := perimIdx_bounds minX minZ maxX maxZ hx hz a ha
  have hbx := perimIdx_bounds minX minZ maxX maxZ hx hz x hxx
  have hk := stepCW_idx minX minZ maxX maxZ hx hz a ha
  exact arith_dist_step_cw hP hba hbx hk hne

theorem ccwDist_step (minX minZ maxX maxZ : ℤ) (hx : minX < maxX)
    (hz : minZ < maxZ) (a x : ℤ × ℤ) (ha : onPerim minX minZ maxX maxZ a)
    (hxx : onPerim minX minZ maxX maxZ x)
    (hne : ccwDist minX minZ maxX maxZ a x ≠ 0) :
    ccwDist minX minZ maxX maxZ (stepCCW minX minZ maxX maxZ a) x =
      ccwDist minX minZ maxX maxZ a x - 1 := by
  have hP := perimLen_pos minX minZ maxX maxZ hx hz
  have hba := perimIdx_bounds minX minZ maxX maxZ hx hz a ha
  have hbx := perimIdx_bounds minX minZ maxX maxZ hx hz x hxx
  have hk := stepCCW_idx minX minZ maxX maxZ hx hz a ha
  exact arith_dist_step_ccw hP hba hbx hk hne

/-! ### The marking loop -/

theorem drawTrace_mem_iff {Pp : ℤ × ℤ → Prop} (step : ℤ × ℤ → ℤ × ℤ)
    (dist : ℤ × ℤ → ℤ × ℤ → ℤ) (t : ℤ × ℤ) (ht : Pp t)
    (hnn : ∀ a b, Pp a → Pp b → 0 ≤ dist a b)
    (hzero : ∀ a b, Pp a → Pp b → (dist a b = 0 ↔ a = b))
    (hstepP : ∀ a, Pp a → Pp (step a))
    (hstepd : ∀ a b, Pp a → Pp b → dist a b ≠ 0 →
      dist (step a) b = dist a b - 1) :
    ∀ (n : Nat) (c : ℤ × ℤ), Pp c → (dist c t).toNat = n →
      ∀ x, (x ∈ drawTrace step t (n + 1) c ↔
        (Pp x ∧ dist c x ≤ dist c t)) := by
  intro n
  induction n with
  | zero =>
    intro c hc h0 x
    have hct : dist c t = 0 := by
      have := hnn c t hc ht
      omega
    have htr : drawTrace step t 1 c = [c] := by
      unfold drawTrace
      split_ifs <;> rfl
    rw [htr]
    constructor
    · intro hxmem
      rcases List.mem_singleton.mp hxmem with hxc
      subst hxc
      refine ⟨hc, ?_⟩
      rw [(hzero x x hc hc).mpr rfl]
      omega
    · rintro ⟨hpx, hd⟩
      have hcx : dist c x = 0 := by
        have := hnn c x hc hpx
        omega
      rw [List.mem_singleton]
      exact ((hzero c x hc hpx).mp hcx).symm
  | succ n ih =>
    intro c hc hn x
    have hct_pos : 0 < dist c t := by
      have := hnn c t hc ht
      omega
    have hcnet : c ≠ t := by
      intro hceq
      rw [(hzero c t hc ht).mpr hceq] at hct_pos
      omega
    have htrace : drawTrace step t (n + 1 + 1) c =
        c :: drawTrace step t (n + 1) (step c) := by
      rw [drawTrace]
      rw [if_neg hcnet]
    have hds : dist (step c) t = dist c t - 1 :=
      hstepd c t hc ht (by omega)
    have hstep_toNat : (dist (step c) t).toNat = n := by omega
    have hihx := ih (step c) (hstepP c hc) hstep_toNat x
    rw [htrace, List.mem_cons, hihx]
    constructor
    · rintro (hxc | ⟨hpx, hd⟩)
      · subst hxc
        refine ⟨hc, ?_⟩
        rw [(hzero x x hc hc).mpr rfl]
        omega
      · refine ⟨hpx, ?_⟩
        by_cases hcx : dist c x = 0
        · omega
        · have h2 := hstepd c x hc hpx hcx
          omega
    · rintro ⟨hpx, hd⟩
      by_cases hcx : dist c x = 0
      · exact Or.inl ((hzero c x hc hpx).mp hcx).symm
      · refine Or.inr ⟨hpx, ?_⟩
        have h2 := hstepd c x hc hpx hcx
        omega

theorem markTrace_fst (tr : List (ℤ × ℤ)) (m : (ℤ × ℤ) → Bool) (c : ℤ × ℤ) :
    ((markTrace tr m).1 c = true ↔ (m c = true ∨ c ∈ tr)) := by
  induction tr generalizing m with
  | nil => simp [markTrace]
  | cons a rest ih =>
    show ((markTrace rest _).1 c = true ↔ _)
    rw [ih]
    by_cases hca : c = a
    · subst hca
      simp
    · simp [hca, List.mem_cons]

/-! ## Claim C9 -/

/-- C9: for a pair of crossing points `f`, `t` on the world-rectangle
perimeter, `draw_along_border` marks exactly the previously marked cells
plus the perimeter cells whose distance from `f`, measured along the chosen
direction, is at most `min cw ccw` — i.e. the cells of the shorter
perimeter arc between `f` and `t`, where the clockwise arc is chosen
whenever the clockwise distance is less than or equal to the
counter-clockwise one. -/
theorem draw_along_border_marks_minimal_arc (minX minZ maxX maxZ : ℤ)
    (hx : minX < maxX) (hz : minZ < maxZ) (f t : ℤ × ℤ)
    (hf : onPerim minX minZ maxX maxZ f) (ht : onPerim minX minZ maxX maxZ t)
    (barrier : (ℤ × ℤ) → Bool) (c : ℤ × ℤ) :
    ((draw_along_border minX minZ maxX maxZ f t barrier).1 c = true ↔
      (barrier c = true ∨ (onPerim minX minZ maxX maxZ c ∧
        (if cwDist minX minZ maxX maxZ f t ≤ ccwDist minX minZ maxX maxZ f t
         then cwDist minX minZ maxX maxZ f c
         else ccwDist minX minZ maxX maxZ f c) ≤
          min (cwDist minX minZ maxX maxZ f t)
            (ccwDist minX minZ maxX maxZ f t)))) := by
  unfold draw_along_border
  rw [markTrace_fst]
  by_cases hdir : cwDist minX minZ maxX maxZ f t ≤
      ccwDist minX minZ maxX maxZ f t
  · rw [if_pos hdir, if_pos hdir, if_pos hdir, min_eq_left hdir]
    have hmem := drawTrace_mem_iff (stepCW minX minZ maxX maxZ)
      (cwDist minX minZ maxX maxZ) t ht
      (fun a b _ _ => cwDist_nonneg minX minZ maxX maxZ hx hz a b)
      (fun a b hpa hpb => cwDist_zero_iff minX minZ maxX maxZ hx hz a b hpa hpb)
      (fun a hpa => stepCW_onPerim minX minZ maxX maxZ hx hz a hpa)
      (fun a b hpa hpb hne => cwDist_step minX minZ maxX maxZ hx hz a b hpa hpb hne)
      ((cwDist minX minZ maxX maxZ f t).toNat) f hf rfl c
    rw [hmem]
  · rw [if_neg hdir, if_neg hdir, if_neg hdir,
      min_eq_right (le_of_not_le hdir)]
    have hmem := drawTrace_mem_iff (stepCCW minX minZ maxX maxZ)
      (ccwDist minX minZ maxX maxZ) t ht
      (fun a b _ _ => ccwDist_nonneg minX minZ maxX maxZ hx hz a b)
      (fun a b hpa hpb => ccwDist_zero_iff minX minZ maxX maxZ hx hz a b hpa hpb)
      (fun a hpa => stepCCW_onPerim minX minZ maxX maxZ hx hz a hpa)
      (fun a b hpa hpb hne => ccwDist_step minX minZ maxX maxZ hx hz a b hpa hpb hne)
      ((ccwDist minX minZ maxX maxZ f t).toNat) f hf rfl c
    rw [hmem]

/-- C9 witness: in the 3x3 world rectangle `[0,2] x [0,2]`, sealing from
`(0,0)` to `(2,0)` (clockwise distance 2, counter-clockwise distance 6)
marks the top-edge cell `(1,0)`. -/
theorem draw_along_border_marks_minimal_arc_witness :
    (draw_along_border 0 0 2 2 (0, 0) (2, 0) (fun _ => false)).1 (1, 0) =
      true :=
  (draw_along_border_marks_minimal_arc 0 0 2 2 (by decide) (by decide)
    (0, 0) (2, 0) (by decide) (by decide) (fun _ => false) (1, 0)).mpr
    (Or.inr (by decide))

/-! ## Bresenham and rasterization (claim C10) -/

/-- Modelled from the spec: `bresenham_line` (src/bresenham.rs is not among
the provided sources).  The spec describes the canonical integer
rasterization of a 3D segment, inclusive of both endpoints, driven by the
dominant axis; it is modelled as rounded linear interpolation along the
dominant axis.  Claim C10 is independent of the exact cell list. -/
def bresenham_line (x1 y1 z1 x2 y2 z2 : ℤ) : List (ℤ × ℤ × ℤ) :=
  let n : Nat := max (x2 - x1).natAbs (max (z2 - z1).natAbs (y2 - y1).natAbs)
  if n = 0 then [(x1, y1, z1)]
  else
    (List.range (n + 1)).map (fun (i : Nat) =>
      (x1 + roundRust ((i : ℚ) * ((x2 - x1 : ℤ) : ℚ) / (n : ℚ)),
       y1 + roundRust ((i : ℚ) * ((y2 - y1 : ℤ) : ℚ) / (n : ℚ)),
       z1 + roundRust ((i : ℚ) * ((z2 - z1 : ℤ) : ℚ) / (n : ℚ))))

/-- The barrier after tracing every consecutive segment of `line` with
`bresenham_line` and marking the in-bounds cells (the first half of the
`rasterize_and_seal` windows loop). -/
def bresMarked (line : List XZPoint) (barrier : (ℤ × ℤ) → Bool)
    (minX minZ maxX maxZ : ℤ) : (ℤ × ℤ) → Bool :=
  fun c =>
    barrier c ||
      (line.zip line.tail).any (fun ab =>
        (bresenham_line ab.1.x 0 ab.1.z ab.2.x 0 ab.2.z).any (fun p =>
          in_bounds p.1 p.2.2 minX minZ maxX maxZ &&
            ((p.1, p.2.2) == c)))

/-- The border-crossing nodes recorded by the windows loop: one clipped
point whenever the in-bounds status changes between consecutive vertices.
The parametric f32 clip (`clip_to_border`) is passed in as `clip`; the
crossing count does not depend on its values. -/
def borderNodesGo (clip : (ℤ × ℤ) → (ℤ × ℤ) → (ℤ × ℤ))
    (minX minZ maxX maxZ : ℤ) : List XZPoint → Bool → List (ℤ × ℤ)
  | a :: b :: rest, insidePrev =>
    let insideCurr := in_bounds b.x b.z minX minZ maxX maxZ
    (if insidePrev ≠ insideCurr then [clip (a.x, a.z) (b.x, b.z)] else []) ++
      borderNodesGo clip minX minZ maxX maxZ (b :: rest) insideCurr
  | _, _ => []

def borderNodes (clip : (ℤ × ℤ) → (ℤ × ℤ) → (ℤ × ℤ))
    (minX minZ maxX maxZ : ℤ) (line : List XZPoint) : List (ℤ × ℤ) :=
  borderNodesGo clip minX minZ maxX maxZ line
    (match line.head? with
     | some n => in_bounds n.x n.z minX minZ maxX maxZ
     | none => false)

/-- `border_nodes.chunks(2)` restricted to complete pairs (the length is
checked even before this is used). -/
def pairChunks {α : Type} : List α → List (α × α)
  | a :: b :: rest => (a, b) :: pairChunks rest
  | _ => []

/-- Fold `draw_along_border` over the node pairs, accumulating seals. -/
def sealPairs (minX minZ maxX maxZ : ℤ) :
    List ((ℤ × ℤ) × (ℤ × ℤ)) → ((ℤ × ℤ) → Bool) → (((ℤ × ℤ) → Bool) × ℤ)
  | [], m => (m, 0)
  | p :: rest, m =>
    let r := draw_along_border minX minZ maxX maxZ p.1 p.2 m
    let r2 := sealPairs minX minZ maxX maxZ rest r.1
    (r2.1, r.2 + r2.2)

/-- `rasterize_and_seal`: trace the segments, record border crossings, and
if their number is even draw the sealing arcs; with an odd count, return
the Bresenham-only barrier and a seal count of 0. -/
def rasterize_and_seal (clip : (ℤ × ℤ) → (ℤ × ℤ) → (ℤ × ℤ))
    (line : List XZPoint) (barrier : (ℤ × ℤ) → Bool)
    (minX minZ maxX maxZ : ℤ) : (((ℤ × ℤ) → Bool) × ℤ) :=
  let marked := bresMarked line barrier minX minZ maxX maxZ
  let nodes := borderNodes clip minX minZ maxX maxZ line
  if nodes.length % 2 = 1 then (marked, 0)
  else sealPairs minX minZ maxX maxZ (pairChunks nodes) marked

/-! ## Claim C10 -/

/-- C10: when the recorded border crossings are odd in number,
`rasterize_and_seal` returns the barrier holding exactly the previous marks
plus the in-bounds Bresenham cells of the polyline segments, with a seal
count of 0 and no perimeter arc drawn (and no panic: the function is
total). -/
theorem rasterize_and_seal_odd_crossings
    (clip : (ℤ × ℤ) → (ℤ × ℤ) → (ℤ × ℤ)) (line : List XZPoint)
    (barrier : (ℤ × ℤ) → Bool) (minX minZ maxX maxZ : ℤ)
    (hodd : (borderNodes clip minX minZ maxX maxZ line).length % 2 = 1) :
    rasterize_and_seal clip line barrier minX minZ maxX maxZ =
      (bresMarked line barrier minX minZ maxX maxZ, 0) := by
  unfold rasterize_and_seal
  rw [if_pos hodd]

/-- C10 witness: a two-vertex line leaving a 10x10 world records one
crossing (an odd number); the seal count is 0. -/
theorem rasterize_and_seal_odd_crossings_witness :
    (rasterize_and_seal (fun a _ => a)
      [(⟨5, 5⟩ : XZPoint), ⟨5, 20⟩] (fun _ => false) 0 0 9 9).2 = 0 := by
  rw [rasterize_and_seal_odd_crossings (fun a _ => a)
    [(⟨5, 5⟩ : XZPoint), ⟨5, 20⟩] (fun _ => false) 0 0 9 9 (by decide)]

end Arnis
